import Mathlib

/-!
Verification of the dat_csv repository's ingestion pipeline against its
specification.

The development shallowly embeds the Python sources:
- byte streams are `List ℕ` (each entry one byte, read little-endian as
  signed 16-bit pairs, as numpy's int16 decoding does);
- numpy float64 arithmetic on the fixed scale constant 0.000488 is modelled
  exactly over ℚ;
- numpy arrays written by index are modelled as functions `ℕ → value`
  (with an explicit parameter for the arbitrary contents that np.empty
  leaves in never-written cells);
- Python str values are `List Char` (code-point lists; comparison and
  digit tests are the ASCII ones, which cover every input considered);
- raised exceptions are `Option`/`Except` error values.

Sources embedded: dat_csv.py (windowed decoders, namespace DatCsv),
dat_csv_integerated.py (full-file decoders and filename parsing, namespace
DatCsvIntegrated), s3_to_timescaledb_gui.py (S3 loaders, filename date
parsing, catalog discovery, batch drain loop, namespace S3Gui).
-/

set_option maxRecDepth 8000

/-- Decode one little-endian signed 16-bit integer from a (lo, hi) byte pair,
as numpy int16 does. -/
def int16 (lo hi : ℕ) : ℤ :=
  let u := lo % 256 + 256 * (hi % 256)
  if u < 32768 then (u : ℤ) else (u : ℤ) - 65536

/-- Reinterpret a byte list as consecutive little-endian int16 values,
dropping a trailing odd byte (np.fromfile / np.frombuffer behaviour). -/
def toInt16s : List ℕ → List ℤ
  | [] => []
  | [_] => []
  | lo :: hi :: rest => int16 lo hi :: toInt16s rest

/-- Group a flat int16 list into (x, y, z) triples, dropping a partial
trailing group (the reshape(-1, 3) step on a multiple-of-3 slice). -/
def triples : List ℤ → List (ℤ × ℤ × ℤ)
  | [] => []
  | [_] => []
  | [_, _] => []
  | x :: y :: z :: rest => (x, y, z) :: triples rest

/-- The ACC unit-scale constant 0.000488 of the sources, modelled over ℚ. -/
def scaleFactor : ℚ := 488 / 1000000

/-- Scale one raw ACC triple, as data.astype(np.float64) * 0.000488 does. -/
def scaleTriple (t : ℤ × ℤ × ℤ) : ℚ × ℚ × ℚ :=
  ((t.1 : ℚ) * scaleFactor, (t.2.1 : ℚ) * scaleFactor, (t.2.2 : ℚ) * scaleFactor)

/-- The 6000 payload bytes of ACC block i: the file stride is 6008 bytes
(3000 int16 of payload plus the 8-byte trailer that every loader skips). -/
def accChunkBytes (bs : List ℕ) (i : ℕ) : List ℕ :=
  (bs.drop (i * 6008)).take 6000

/-- The 2000 payload bytes of MIC block i (stride 2008 = 1000 int16 + 8). -/
def micChunkBytes (bs : List ℕ) (i : ℕ) : List ℕ :=
  (bs.drop (i * 2008)).take 2000

/-- The i-th raw ACC sample triple of a capture, read at block i / 1000,
in-block sample i % 1000 (6 payload bytes per sample, stride 6008). -/
def accRawTriple (bs : List ℕ) (i : ℕ) : ℤ × ℤ × ℤ :=
  let base := (i / 1000) * 6008 + 6 * (i % 1000)
  (int16 (bs.getD base 0) (bs.getD (base + 1) 0),
   int16 (bs.getD (base + 2) 0) (bs.getD (base + 3) 0),
   int16 (bs.getD (base + 4) 0) (bs.getD (base + 5) 0))

/-- The i-th raw MIC sample of a capture (2 payload bytes per sample,
stride 2008). -/
def micRawSample (bs : List ℕ) (i : ℕ) : ℤ :=
  let base := (i / 1000) * 2008 + 2 * (i % 1000)
  int16 (bs.getD base 0) (bs.getD (base + 1) 0)

/-- Overwrite the cells start .. start + vals.length - 1 of an array-as-
function with vals (a numpy slice assignment buf[start:start+len] = vals). -/
def writeSeg {β : Type} (buf : ℕ → β) (start : ℕ) (vals : List β) (dflt : β) :
    ℕ → β :=
  fun idx =>
    if start ≤ idx ∧ idx < start + vals.length then vals.getD (idx - start) dflt
    else buf idx

namespace DatCsvIntegrated

/-- Loop of ConversionWorker.load_dat_file_acc (dat_csv_integerated.py,
lines 38-53): for each of the `fuel` remaining sets read 3000 int16; a short
chunk keeps its complete triples and breaks, a full chunk is appended and
the 8-byte trailer skipped.  The list returned is exactly the rows the
Python code leaves in data[:samples]. -/
def accFullLoop (bs : List ℕ) : ℕ → ℕ → List (ℤ × ℤ × ℤ)
  | 0, _ => []
  | fuel + 1, i =>
    let chunk := toInt16s (accChunkBytes bs i)
    if chunk.length < 3000 then triples (chunk.take (3 * (chunk.length / 3)))
    else triples chunk ++ accFullLoop bs fuel (i + 1)

/-- ConversionWorker.load_dat_file_acc of dat_csv_integerated.py: full-file
ACC decode; sets = file_size // 6008, then the read loop, then scaling by
0.000488. -/
def load_dat_file_acc (bs : List ℕ) : List (ℚ × ℚ × ℚ) :=
  (accFullLoop bs (bs.length / 6008) 0).map scaleTriple

/-- Loop of ConversionWorker.load_dat_file_mic (dat_csv_integerated.py,
lines 68-80): read 1000 int16 per set; a short chunk is kept and breaks. -/
def micFullLoop (bs : List ℕ) : ℕ → ℕ → List ℤ
  | 0, _ => []
  | fuel + 1, i =>
    let chunk := toInt16s (micChunkBytes bs i)
    if chunk.length < 1000 then chunk
    else chunk ++ micFullLoop bs fuel (i + 1)

/-- ConversionWorker.load_dat_file_mic of dat_csv_integerated.py: full-file
MIC decode; sets = file_size // 2008, raw int16 values kept unscaled. -/
def load_dat_file_mic (bs : List ℕ) : List ℤ :=
  micFullLoop bs (bs.length / 2008) 0

end DatCsvIntegrated

namespace DatCsv

/-- Loop of ConversionWorker.load_dat_file_acc (dat_csv.py, lines 33-41):
windowed ACC decode over `fuel` sets; a chunk shorter than 3000 int16
raises ValueError (modelled none); otherwise csize = min(1000,
samples_needed - total) rows are written at position total. -/
def accWinLoop (bs : List ℕ) (needed : ℕ) :
    ℕ → ℕ → ℕ → (ℕ → ℤ × ℤ × ℤ) → Option (ℕ → ℤ × ℤ × ℤ)
  | 0, _, _, buf => some buf
  | fuel + 1, i, total, buf =>
    let chunk := toInt16s (accChunkBytes bs i)
    if chunk.length < 3000 then none
    else
      let csize := min 1000 (needed - total)
      accWinLoop bs needed fuel (i + 1) (total + csize)
        (writeSeg buf total ((triples chunk).take csize) (0, 0, 0))

/-- ConversionWorker.load_dat_file_acc of dat_csv.py: demand
sampling_rate * window_sec samples over ceil(needed / 1000) sets, then
scale.  junk is the arbitrary initial content of np.empty. -/
def load_dat_file_acc (junk : ℕ → ℤ × ℤ × ℤ) (bs : List ℕ)
    (sampling_rate window_sec : ℕ) : Option (List (ℚ × ℚ × ℚ)) :=
  let samples_needed := sampling_rate * window_sec
  let sets := (samples_needed + 999) / 1000
  match accWinLoop bs samples_needed sets 0 0 junk with
  | none => none
  | some buf => some (((List.range samples_needed).map buf).map scaleTriple)

/-- Loop of ConversionWorker.load_dat_file_mic (dat_csv.py, lines 49-55):
windowed MIC decode; chunk i is written at buf[i*1000:(i+1)*1000]; a short
chunk raises ValueError. -/
def micWinLoop (bs : List ℕ) : ℕ → ℕ → (ℕ → ℤ) → Option (ℕ → ℤ)
  | 0, _, buf => some buf
  | fuel + 1, i, buf =>
    let chunk := toInt16s (micChunkBytes bs i)
    if chunk.length < 1000 then none
    else micWinLoop bs fuel (i + 1) (writeSeg buf (i * 1000) chunk 0)

/-- ConversionWorker.load_dat_file_mic of dat_csv.py: buf = np.empty
(samples_needed) with arbitrary initial contents junk, filled over
sets = samples_needed // 1000 sets (floor division). -/
def load_dat_file_mic (junk : ℕ → ℤ) (bs : List ℕ)
    (sampling_rate window_sec : ℕ) : Option (List ℤ) :=
  let samples_needed := sampling_rate * window_sec
  match micWinLoop bs (samples_needed / 1000) 0 junk with
  | none => none
  | some buf => some ((List.range samples_needed).map buf)

end DatCsv

namespace S3Gui

/-- Loop of S3ToTimescaleDBApp.load_acc_dat_from_s3 (s3_to_timescaledb_gui.py,
lines 549-563): read 6000-byte chunks, breaking on a short read (the stream
holds the whole object, so for i < sets the read is never short), scaling
each row as it is stored.  The rows returned are all_data[:read_count]. -/
def accS3Loop (bs : List ℕ) : ℕ → ℕ → List (ℚ × ℚ × ℚ)
  | 0, _ => []
  | fuel + 1, i =>
    let chunkBytes := accChunkBytes bs i
    if chunkBytes.length < 6000 then []
    else (triples (toInt16s chunkBytes)).map scaleTriple ++ accS3Loop bs fuel (i + 1)

/-- The sampling loop of both S3 loaders (lines 570-575 and 615-620): the
seconds 0..4 accepted before the first one whose leading 30 samples are not
fully within the avail decoded samples. -/
def sampleSeconds (rate avail : ℕ) : List ℕ :=
  (List.range 5).takeWhile (fun s => s * rate + 30 ≤ avail)

/-- S3ToTimescaleDBApp.load_acc_dat_from_s3: full decode of the object body,
then per-second sampling of the first 30 samples of each of up to 5 seconds
at 1666 Hz. -/
def load_acc_dat_from_s3 (bs : List ℕ) : List (ℚ × ℚ × ℚ) :=
  let rows := accS3Loop bs (bs.length / 6008) 0
  (sampleSeconds 1666 rows.length).flatMap (fun s => (rows.drop (s * 1666)).take 30)

/-- Loop of S3ToTimescaleDBApp.load_mic_dat_from_s3 (lines 598-608). -/
def micS3Loop (bs : List ℕ) : ℕ → ℕ → List ℤ
  | 0, _ => []
  | fuel + 1, i =>
    let chunkBytes := micChunkBytes bs i
    if chunkBytes.length < 2000 then []
    else toInt16s chunkBytes ++ micS3Loop bs fuel (i + 1)

/-- S3ToTimescaleDBApp.load_mic_dat_from_s3: when sets = 0 the read loop
body never runs and line 617 reads the unbound locals i and chunk, raising
NameError (modelled as the error case); otherwise i = sets - 1 and chunk is
the last chunk read, so the sampling bound i*1000 + len(chunk) is as below,
with sampling at 8000 Hz. -/
def load_mic_dat_from_s3 (bs : List ℕ) : Except Unit (List ℤ) :=
  let sets := bs.length / 2008
  if sets = 0 then .error ()
  else
    let samples := micS3Loop bs sets 0
    let avail := (sets - 1) * 1000 + (toInt16s (micChunkBytes bs (sets - 1))).length
    .ok ((sampleSeconds 8000 avail).flatMap (fun s => (samples.drop (s * 8000)).take 30))

end S3Gui

/-- Python str values, as lists of code points. -/
abbrev PyStr := List Char

/-- ASCII decimal digit test (Python str.isdigit on the inputs considered). -/
def isDigitChar (c : Char) : Bool :=
  48 ≤ c.toNat && c.toNat ≤ 57

/-- Value of an ASCII digit string. -/
def digitsToNat (cs : List Char) : ℕ :=
  cs.foldl (fun a c => a * 10 + (c.toNat - 48)) 0

/-- Python str.isdigit: nonempty and all digits. -/
def strIsdigit (cs : PyStr) : Bool :=
  !cs.isEmpty && cs.all isDigitChar

/-- Python int(str): an optional single sign followed by one or more digits
(surrounding whitespace and underscore grouping, which cannot occur in the
underscore-split fields fed to it here, are not modelled); anything else
raises ValueError, modelled none. -/
def pyInt (cs : PyStr) : Option ℤ :=
  match cs with
  | [] => none
  | c :: rest =>
    if c = '-' then
      if !rest.isEmpty && rest.all isDigitChar then some (-(digitsToNat rest : ℤ))
      else none
    else if c = '+' then
      if !rest.isEmpty && rest.all isDigitChar then some ((digitsToNat rest : ℤ))
      else none
    else if (c :: rest).all isDigitChar then some ((digitsToNat (c :: rest) : ℤ))
    else none

/-- Python str.split(sep) for a single-character separator. -/
def splitOnChar (sep : Char) : List Char → List (List Char)
  | [] => [[]]
  | c :: rest =>
    match splitOnChar sep rest with
    | [] => [[]]
    | h :: t => if c = sep then [] :: h :: t else (c :: h) :: t

/-- Python os.path.basename: the part after the last slash. -/
def basename (p : PyStr) : PyStr :=
  (splitOnChar '/' p).getLastD []

/-- A naive Python datetime value. -/
structure PyDateTime where
  year : ℕ
  month : ℕ
  day : ℕ
  hour : ℕ
  minute : ℕ
  second : ℕ
deriving DecidableEq, Repr

/-- Gregorian leap-year rule used by datetime. -/
def isLeapYear (y : ℕ) : Bool :=
  (y % 4 = 0 && y % 100 != 0) || y % 400 = 0

/-- Length of a month, as datetime validates the day field. -/
def daysInMonth (y m : ℕ) : ℕ :=
  if m = 2 then (if isLeapYear y then 29 else 28)
  else if m = 4 || m = 6 || m = 9 || m = 11 then 30
  else 31

/-- The validity check of the datetime constructor. -/
def dtValid (y mo d h mi s : ℤ) : Bool :=
  1 ≤ y && y ≤ 9999 && 1 ≤ mo && mo ≤ 12 && 1 ≤ d &&
    d ≤ (daysInMonth y.toNat mo.toNat : ℤ) &&
    0 ≤ h && h ≤ 23 && 0 ≤ mi && mi ≤ 59 && 0 ≤ s && s ≤ 59

/-- Python datetime(year, month, day, hour, minute, second): a ValueError on
any out-of-range field is modelled none. -/
def mkDatetime (y mo d h mi s : ℤ) : Option PyDateTime :=
  if dtValid y mo d h mi s then
    some ⟨y.toNat, mo.toNat, d.toNat, h.toNat, mi.toNat, s.toNat⟩
  else none

/-- Radix encoding of a datetime; on values built by mkDatetime every field
is below its radix, so comparing keys is Python's field-lexicographic
datetime comparison. -/
def dtKey (d : PyDateTime) : ℕ :=
  ((((d.year * 13 + d.month) * 32 + d.day) * 24 + d.hour) * 60 + d.minute) * 60
    + d.second

/-- Python datetime ≤ comparison. -/
def dtLe (a b : PyDateTime) : Bool :=
  dtKey a ≤ dtKey b

/-- Python datetime.replace(hour=23, minute=59, second=59), applied to the
end date at s3_to_timescaledb_gui.py line 871. -/
def endOfDay (d : PyDateTime) : PyDateTime :=
  { d with hour := 23, minute := 59, second := 59 }

namespace DatCsvIntegrated

/-- ConversionWorker.extract_datetime_from_filename
(dat_csv_integerated.py, lines 85-109): split on underscore, validate the
8-digit date block and the digit-string time fields with their ranges, then
build the datetime; any failure (including a datetime ValueError caught by
the bare except) returns None. -/
def extract_datetime_from_filename (filename : PyStr) : Option PyDateTime :=
  let parts := splitOnChar '_' filename
  if 4 ≤ parts.length then
    let date_str := parts.getD 0 []
    let hour := parts.getD 1 []
    let minute := parts.getD 2 []
    let second := parts.getD 3 []
    if date_str.length = 8 && strIsdigit date_str then
      if strIsdigit hour && strIsdigit minute && strIsdigit second &&
          digitsToNat hour ≤ 23 && digitsToNat minute ≤ 59 &&
          digitsToNat second ≤ 59 then
        mkDatetime (digitsToNat (date_str.take 4)) (digitsToNat ((date_str.drop 4).take 2))
          (digitsToNat ((date_str.drop 6).take 2)) (digitsToNat hour)
          (digitsToNat minute) (digitsToNat second)
      else none
    else none
  else none

end DatCsvIntegrated

namespace S3Gui

/-- S3ToTimescaleDBApp.parse_filename_date (s3_to_timescaledb_gui.py, lines
455-470): split on underscore; with at least 4 parts it converts the time
fields and date slices with int() and builds the datetime - int() or
datetime() failures raise (Except.error); fewer than 4 parts returns None. -/
def parse_filename_date (filename : PyStr) : Except Unit (Option PyDateTime) :=
  let parts := splitOnChar '_' filename
  if 4 ≤ parts.length then
    let date_str := parts.getD 0 []
    match pyInt (parts.getD 1 []), pyInt (parts.getD 2 []), pyInt (parts.getD 3 []),
        pyInt (date_str.take 4), pyInt ((date_str.drop 4).take 2),
        pyInt ((date_str.drop 6).take 2) with
    | some h, some mi, some s, some y, some mo, some d =>
      match mkDatetime y mo d h mi s with
      | some dt => .ok (some dt)
      | none => .error ()
    | _, _, _, _, _, _ => .error ()
  else .ok none

/-- The per-key test of the catalog scan (s3_to_timescaledb_gui.py, lines
888-894): keep a .dat key whose basename parses to a date within
[start_date, end_date-at-23:59:59]; a raising parse aborts the scan. -/
def keyAccept (start endRep : PyDateTime) (key : PyStr) : Except Unit Bool :=
  if (".dat".data).isSuffixOf key then
    match parse_filename_date (basename key) with
    | .error e => .error e
    | .ok none => .ok false
    | .ok (some d) => .ok (dtLe start d && dtLe d endRep)
  else .ok false

/-- The catalog scan over the listed (sensor, key) pairs, in listing order:
accepted pairs are collected; a raising parse aborts the whole scan. -/
def collectFiles (start endRep : PyDateTime) :
    List (PyStr × PyStr) → Except Unit (List (PyStr × PyStr))
  | [] => .ok []
  | p :: rest =>
    match keyAccept start endRep p.2 with
    | .error e => .error e
    | .ok b =>
      match collectFiles start endRep rest with
      | .error e => .error e
      | .ok t => .ok (if b then p :: t else t)

/-- The sort key of all_files.sort(key=lambda x: (x[0], x[1])): Python tuple
comparison, strings compared lexicographically by code point. -/
def strLeAux : List Char → List Char → Bool
  | [], _ => true
  | _ :: _, [] => false
  | a :: as, b :: bs =>
    if a.toNat < b.toNat then true
    else if b.toNat < a.toNat then false
    else strLeAux as bs

/-- Tuple ≤ on (sensor, key) pairs, as Python compares them. -/
def fileLe (a b : PyStr × PyStr) : Bool :=
  if a.1 = b.1 then strLeAux a.2 b.2 else strLeAux a.1 b.1

/-- The sorted-pair order as a Prop relation. -/
def fileLeR (a b : PyStr × PyStr) : Prop :=
  fileLe a b = true

instance : DecidableRel fileLeR :=
  fun a b => inferInstanceAs (Decidable (fileLe a b = true))

/-- Catalog discovery of process_s3_files (s3_to_timescaledb_gui.py, lines
864-901): collect the date-filtered (sensor, key) pairs from the listing,
then sort by (sensor, key).  Python's stable list.sort is modelled by
insertion sort: under the total antisymmetric order fileLeR both produce
the unique sorted arrangement of the collected pairs. -/
def discoverFiles (start endd : PyDateTime) (listing : List (PyStr × PyStr)) :
    Except Unit (List (PyStr × PyStr)) :=
  match collectFiles start (endOfDay endd) listing with
  | .error e => .error e
  | .ok l => .ok (List.insertionSort fileLeR l)

/-- Whether the catalog scan keeps a listed pair (its per-key test returned
true) - the predicate underlying collectFiles on a scan with no parse
failure. -/
def keyKeep (start endRep : PyDateTime) (p : PyStr × PyStr) : Bool :=
  match keyAccept start endRep p.2 with
  | .ok true => true
  | _ => false

end S3Gui

namespace S3Gui

/-- A future of the ThreadPoolExecutor as seen by the drain loop: the batch
index it was submitted with, the (wall-clock) time its decode completes,
and the BatchResult value future.result() will yield once it completes. -/
structure BatchFuture (α : Type) where
  batchIdx : ℕ
  completeAt : ℕ
  value : α

/-- The submission loop of process_s3_files (lines 920-926): one future per
batch, appended to the futures list in batch-index order. -/
def submitAll {α : Type} (decode : ℕ → α) (completeAt : ℕ → ℕ) (n : ℕ) :
    List (BatchFuture α) :=
  (List.range n).map (fun b => ⟨b, completeAt b, decode b⟩)

/-- The stats dictionary fields the final summary prints (lines 1060-1070):
processed files and total inserted records (plus elapsed time, which carries
no batch information). -/
structure RunStats where
  processed_files : ℕ
  total_records : ℕ
deriving DecidableEq, Repr

/-- State of the result-collection loop of process_s3_files (lines 933-1026):
the stats counters, the per-batch insert events in destination order, the
batches whose results were awaited at all, and the batches logged as failed
by the except handler at line 1023. -/
structure DrainState (α : Type) where
  stats : RunStats
  inserts : List (ℕ × α)
  attempted : List ℕ
  failedLog : List ℕ
deriving Repr

/-- Initial drain state (stats reset at lines 906-908). -/
def initDrain {α : Type} : DrainState α :=
  ⟨⟨0, 0⟩, [], [], []⟩

/-- One iteration of the result-collection loop on the next future in
submission order: wait on the future (its completion time delays but never
reorders anything), then try the insert; on success the batch buffers are
inserted and the counters bumped (total_records inside insert_buffer_data,
processed_files by file_batch_size at line 976); on failure the except
handler at line 1022 logs the batch and continues, skipping the counter
updates.  insertOk models the whole try block for the batch failing or
succeeding - a wait timeout or a failure of the batch's first insert; a
failure of a later per-table insert inside one batch would keep the earlier
tables' record counts, a sub-batch granularity this batch-level model does
not distinguish. -/
def drainStep {α : Type} (fileBatchSize : ℕ) (insertOk : ℕ → Bool)
    (rowCount : α → ℕ) (st : DrainState α) (f : BatchFuture α) : DrainState α :=
  if insertOk f.batchIdx then
    { st with
      attempted := st.attempted ++ [f.batchIdx]
      inserts := st.inserts ++ [(f.batchIdx, f.value)]
      stats := ⟨st.stats.processed_files + fileBatchSize,
                st.stats.total_records + rowCount f.value⟩ }
  else
    { st with
      attempted := st.attempted ++ [f.batchIdx]
      failedLog := st.failedLog ++ [f.batchIdx] }

/-- The whole result-collection loop: futures are consumed in list
(= submission) order, with no cancellation requested. -/
def drainAll {α : Type} (fileBatchSize : ℕ) (insertOk : ℕ → Bool)
    (rowCount : α → ℕ) (futures : List (BatchFuture α)) : DrainState α :=
  futures.foldl (drainStep fileBatchSize insertOk rowCount) initDrain

/-- A complete run of submission plus drain for n batches. -/
def processRun {α : Type} (decode : ℕ → α) (completeAt : ℕ → ℕ)
    (fileBatchSize : ℕ) (insertOk : ℕ → Bool) (rowCount : α → ℕ) (n : ℕ) :
    DrainState α :=
  drainAll fileBatchSize insertOk rowCount (submitAll decode completeAt n)

/-- The final summary (log lines 1060-1064 and the dialog at 1066-1070)
shows exactly the stats fields. -/
def finalSummary {α : Type} (st : DrainState α) : RunStats :=
  st.stats

end S3Gui

/-! Helper lemmas about the byte-level decoding primitives. -/

theorem toInt16s_length : ∀ l : List ℕ, (toInt16s l).length = l.length / 2
  | [] => rfl
  | [_] => by simp [toInt16s]
  | _ :: _ :: rest => by
    simp only [toInt16s, List.length_cons]
    rw [toInt16s_length rest]
    omega

theorem toInt16s_getD : ∀ (l : List ℕ) (j : ℕ), j < l.length / 2 →
    (toInt16s l).getD j 0 = int16 (l.getD (2 * j) 0) (l.getD (2 * j + 1) 0)
  | [], j, h => by simp at h
  | [_], j, h => by simp only [List.length_cons, List.length_nil] at h; omega
  | a :: b :: rest, 0, _ => by simp [toInt16s]
  | a :: b :: rest, j + 1, h => by
    have hrec := toInt16s_getD rest j (by simp at h; omega)
    have h2 : 2 * (j + 1) = 2 * j + 1 + 1 := by omega
    simp only [toInt16s, h2, List.getD_cons_succ]
    exact hrec

theorem triples_length : ∀ l : List ℤ, (triples l).length = l.length / 3
  | [] => rfl
  | [_] => by simp [triples]
  | [_, _] => by simp [triples]
  | _ :: _ :: _ :: rest => by
    simp only [triples, List.length_cons]
    rw [triples_length rest]
    omega

theorem triples_getD : ∀ (l : List ℤ) (j : ℕ), j < l.length / 3 →
    (triples l).getD j (0, 0, 0) =
      (l.getD (3 * j) 0, l.getD (3 * j + 1) 0, l.getD (3 * j + 2) 0)
  | [], j, h => by simp at h
  | [_], j, h => by simp only [List.length_cons, List.length_nil] at h; omega
  | [_, _], j, h => by simp only [List.length_cons, List.length_nil] at h; omega
  | a :: b :: c :: rest, 0, _ => by simp [triples]
  | a :: b :: c :: rest, j + 1, h => by
    have hrec := triples_getD rest j (by simp at h; omega)
    have h3 : 3 * (j + 1) = 3 * j + 2 + 1 := by omega
    have h3a : 3 * j + 2 + 1 + 1 = 3 * j + 1 + 1 + 1 + 1 := by omega
    have h3b : 3 * j + 2 + 1 + 2 = 3 * j + 2 + 1 + 1 + 1 := by omega
    simp only [triples, h3, h3a, h3b, List.getD_cons_succ]
    exact hrec

theorem accChunkBytes_getD (bs : List ℕ) (b t : ℕ) (ht : t < 6000) :
    (accChunkBytes bs b).getD t 0 = bs.getD (b * 6008 + t) 0 := by
  simp only [accChunkBytes, List.getD_eq_getElem?_getD, List.getElem?_take,
    List.getElem?_drop, ht, if_pos]

theorem accChunkBytes_length (bs : List ℕ) (b : ℕ)
    (h : b * 6008 + 6000 ≤ bs.length) : (accChunkBytes bs b).length = 6000 := by
  simp only [accChunkBytes, List.length_take, List.length_drop]
  omega

theorem micChunkBytes_getD (bs : List ℕ) (b t : ℕ) (ht : t < 2000) :
    (micChunkBytes bs b).getD t 0 = bs.getD (b * 2008 + t) 0 := by
  simp only [micChunkBytes, List.getD_eq_getElem?_getD, List.getElem?_take,
    List.getElem?_drop, ht, if_pos]

theorem micChunkBytes_length (bs : List ℕ) (b : ℕ)
    (h : b * 2008 + 2000 ≤ bs.length) : (micChunkBytes bs b).length = 2000 := by
  simp only [micChunkBytes, List.length_take, List.length_drop]
  omega

theorem accChunkBytes_length_le (bs : List ℕ) (b : ℕ) :
    (accChunkBytes bs b).length ≤ 6000 := by
  simp only [accChunkBytes, List.length_take, List.length_drop]
  omega

theorem micChunkBytes_length_le (bs : List ℕ) (b : ℕ) :
    (micChunkBytes bs b).length ≤ 2000 := by
  simp only [micChunkBytes, List.length_take, List.length_drop]
  omega

/-- The raw int16 content of a complete ACC payload block. -/
theorem acc_block_getD (bs : List ℕ) (b j : ℕ) (hj : j < 1000)
    (hb : b * 6008 + 6000 ≤ bs.length) :
    (triples (toInt16s (accChunkBytes bs b))).getD j (0, 0, 0) =
      accRawTriple bs (b * 1000 + j) := by
  have hlen : (toInt16s (accChunkBytes bs b)).length = 3000 := by
    rw [toInt16s_length, accChunkBytes_length bs b hb]
  have h1 := triples_getD (toInt16s (accChunkBytes bs b)) j (by omega)
  rw [h1]
  have e1 := toInt16s_getD (accChunkBytes bs b) (3 * j)
    (by rw [accChunkBytes_length bs b hb]; omega)
  have e2 := toInt16s_getD (accChunkBytes bs b) (3 * j + 1)
    (by rw [accChunkBytes_length bs b hb]; omega)
  have e3 := toInt16s_getD (accChunkBytes bs b) (3 * j + 2)
    (by rw [accChunkBytes_length bs b hb]; omega)
  rw [e1, e2, e3]
  rw [accChunkBytes_getD bs b (2 * (3 * j)) (by omega),
    accChunkBytes_getD bs b (2 * (3 * j) + 1) (by omega),
    accChunkBytes_getD bs b (2 * (3 * j + 1)) (by omega),
    accChunkBytes_getD bs b (2 * (3 * j + 1) + 1) (by omega),
    accChunkBytes_getD bs b (2 * (3 * j + 2)) (by omega),
    accChunkBytes_getD bs b (2 * (3 * j + 2) + 1) (by omega)]
  have hdiv : (b * 1000 + j) / 1000 = b := by omega
  have hmod : (b * 1000 + j) % 1000 = j := by omega
  simp only [accRawTriple, hdiv, hmod]
  have g1 : b * 6008 + 2 * (3 * j) = b * 6008 + 6 * j := by omega
  have g2 : b * 6008 + (2 * (3 * j) + 1) = b * 6008 + 6 * j + 1 := by omega
  have g3 : b * 6008 + 2 * (3 * j + 1) = b * 6008 + 6 * j + 2 := by omega
  have g4 : b * 6008 + (2 * (3 * j + 1) + 1) = b * 6008 + 6 * j + 3 := by omega
  have g5 : b * 6008 + 2 * (3 * j + 2) = b * 6008 + 6 * j + 4 := by omega
  have g6 : b * 6008 + (2 * (3 * j + 2) + 1) = b * 6008 + 6 * j + 5 := by omega
  rw [g1, g2, g3, g4, g5, g6]

/-- The raw int16 content of a complete MIC payload block. -/
theorem mic_block_getD (bs : List ℕ) (b j : ℕ) (hj : j < 1000)
    (hb : b * 2008 + 2000 ≤ bs.length) :
    (toInt16s (micChunkBytes bs b)).getD j 0 = micRawSample bs (b * 1000 + j) := by
  have e1 := toInt16s_getD (micChunkBytes bs b) j
    (by rw [micChunkBytes_length bs b hb]; omega)
  rw [e1, micChunkBytes_getD bs b (2 * j) (by omega),
    micChunkBytes_getD bs b (2 * j + 1) (by omega)]
  have hdiv : (b * 1000 + j) / 1000 = b := by omega
  have hmod : (b * 1000 + j) % 1000 = j := by omega
  simp only [micRawSample, hdiv, hmod]
  have g2 : b * 2008 + (2 * j + 1) = b * 2008 + 2 * j + 1 := by omega
  rw [g2]

/-! Generic lemmas about concatenations of fixed-length segments. -/

theorem flatMap_range_length {β : Type} (g : ℕ → List β) (k : ℕ) :
    ∀ m : ℕ, (∀ b, b < m → (g b).length = k) →
      ((List.range m).flatMap g).length = m * k := by
  intro m
  induction m with
  | zero => intro _; simp
  | succ m ih =>
    intro h
    rw [List.range_succ, List.flatMap_append]
    simp only [List.length_append, List.flatMap_cons, List.flatMap_nil,
      List.append_nil]
    rw [ih (fun b hb => h b (by omega)), h m (by omega)]
    ring

theorem flatMap_range_getD {β : Type} (g : ℕ → List β) (k : ℕ) (d : β) :
    ∀ m b j : ℕ, (∀ a, a < m → (g a).length = k) → b < m → j < k →
      ((List.range m).flatMap g).getD (b * k + j) d = (g b).getD j d := by
  intro m
  induction m with
  | zero => intro b j _ hb; omega
  | succ m ih =>
    intro b j h hb hj
    rw [List.range_succ, List.flatMap_append]
    simp only [List.flatMap_cons, List.flatMap_nil, List.append_nil]
    have hlen : ((List.range m).flatMap g).length = m * k :=
      flatMap_range_length g k m (fun a ha => h a (by omega))
    by_cases hbm : b < m
    · have hidx : b * k + j < m * k := by
        have h1 : (b + 1) * k ≤ m * k := Nat.mul_le_mul_right k (by omega)
        have h2 : (b + 1) * k = b * k + k := by ring
        omega
      rw [List.getD_eq_getElem?_getD, List.getElem?_append, if_pos (by omega)]
      rw [← List.getD_eq_getElem?_getD]
      exact ih b j (fun a ha => h a (by omega)) hbm hj
    · have hbe : b = m := by omega
      subst hbe
      rw [List.getD_eq_getElem?_getD,
        List.getElem?_append_right (by omega)]
      rw [hlen]
      have : b * k + j - b * k = j := by omega
      rw [this, ← List.getD_eq_getElem?_getD]

/-! Characterization of the full-file read loops: when every demanded block
payload is present (always true when the set count is size // stride), the
loop is the concatenation of the per-block decodes. -/

theorem DatCsvIntegrated.accFullLoop_eq (bs : List ℕ) :
    ∀ fuel i : ℕ, (∀ k, k < fuel → (i + k) * 6008 + 6000 ≤ bs.length) →
      accFullLoop bs fuel i =
        (List.range fuel).flatMap
          (fun k => triples (toInt16s (accChunkBytes bs (i + k)))) := by
  intro fuel
  induction fuel with
  | zero => intro i _; simp [accFullLoop]
  | succ fuel ih =>
    intro i h
    have h0 : i * 6008 + 6000 ≤ bs.length := by
      have := h 0 (by omega)
      omega
    have hchunk : (toInt16s (accChunkBytes bs i)).length = 3000 := by
      rw [toInt16s_length, accChunkBytes_length bs i h0]
    rw [accFullLoop]
    simp only [hchunk]
    rw [if_neg (by omega)]
    rw [List.range_succ_eq_map, List.flatMap_cons, List.flatMap_map]
    have harg : (fun k => triples (toInt16s (accChunkBytes bs (i + Nat.succ k))))
        = (fun k => triples (toInt16s (accChunkBytes bs (i + 1 + k)))) := by
      funext k
      have : i + Nat.succ k = i + 1 + k := by omega
      rw [this]
    have hrest := ih (i + 1) (fun k hk => by
      have := h (k + 1) (by omega)
      have e : i + 1 + k = i + (k + 1) := by omega
      rw [e]; exact this)
    simp only [Nat.add_zero, Function.comp]
    rw [harg, hrest]

theorem DatCsvIntegrated.micFullLoop_eq (bs : List ℕ) :
    ∀ fuel i : ℕ, (∀ k, k < fuel → (i + k) * 2008 + 2000 ≤ bs.length) →
      micFullLoop bs fuel i =
        (List.range fuel).flatMap
          (fun k => toInt16s (micChunkBytes bs (i + k))) := by
  intro fuel
  induction fuel with
  | zero => intro i _; simp [micFullLoop]
  | succ fuel ih =>
    intro i h
    have h0 : i * 2008 + 2000 ≤ bs.length := by
      have := h 0 (by omega)
      omega
    have hchunk : (toInt16s (micChunkBytes bs i)).length = 1000 := by
      rw [toInt16s_length, micChunkBytes_length bs i h0]
    rw [micFullLoop]
    simp only [hchunk]
    rw [if_neg (by omega)]
    rw [List.range_succ_eq_map, List.flatMap_cons, List.flatMap_map]
    have harg : (fun k => toInt16s (micChunkBytes bs (i + Nat.succ k)))
        = (fun k => toInt16s (micChunkBytes bs (i + 1 + k))) := by
      funext k
      have : i + Nat.succ k = i + 1 + k := by omega
      rw [this]
    have hrest := ih (i + 1) (fun k hk => by
      have := h (k + 1) (by omega)
      have e : i + 1 + k = i + (k + 1) := by omega
      rw [e]; exact this)
    simp only [Nat.add_zero, Function.comp]
    rw [harg, hrest]

theorem S3Gui.accS3Loop_eq (bs : List ℕ) :
    ∀ fuel i : ℕ, (∀ k, k < fuel → (i + k) * 6008 + 6000 ≤ bs.length) →
      accS3Loop bs fuel i =
        (List.range fuel).flatMap
          (fun k => (triples (toInt16s (accChunkBytes bs (i + k)))).map scaleTriple) := by
  intro fuel
  induction fuel with
  | zero => intro i _; simp [accS3Loop]
  | succ fuel ih =>
    intro i h
    have h0 : i * 6008 + 6000 ≤ bs.length := by
      have := h 0 (by omega)
      omega
    have hchunk : (accChunkBytes bs i).length = 6000 :=
      accChunkBytes_length bs i h0
    rw [accS3Loop]
    simp only [hchunk]
    rw [if_neg (by omega)]
    rw [List.range_succ_eq_map, List.flatMap_cons, List.flatMap_map]
    have harg : (fun k => (triples (toInt16s (accChunkBytes bs (i + Nat.succ k)))).map scaleTriple)
        = (fun k => (triples (toInt16s (accChunkBytes bs (i + 1 + k)))).map scaleTriple) := by
      funext k
      have : i + Nat.succ k = i + 1 + k := by omega
      rw [this]
    have hrest := ih (i + 1) (fun k hk => by
      have := h (k + 1) (by omega)
      have e : i + 1 + k = i + (k + 1) := by omega
      rw [e]; exact this)
    simp only [Nat.add_zero, Function.comp]
    rw [harg, hrest]

theorem S3Gui.micS3Loop_eq (bs : List ℕ) :
    ∀ fuel i : ℕ, (∀ k, k < fuel → (i + k) * 2008 + 2000 ≤ bs.length) →
      micS3Loop bs fuel i =
        (List.range fuel).flatMap
          (fun k => toInt16s (micChunkBytes bs (i + k))) := by
  intro fuel
  induction fuel with
  | zero => intro i _; simp [micS3Loop]
  | succ fuel ih =>
    intro i h
    have h0 : i * 2008 + 2000 ≤ bs.length := by
      have := h 0 (by omega)
      omega
    have hchunk : (micChunkBytes bs i).length = 2000 :=
      micChunkBytes_length bs i h0
    rw [micS3Loop]
    simp only [hchunk]
    rw [if_neg (by omega)]
    rw [List.range_succ_eq_map, List.flatMap_cons, List.flatMap_map]
    have harg : (fun k => toInt16s (micChunkBytes bs (i + Nat.succ k)))
        = (fun k => toInt16s (micChunkBytes bs (i + 1 + k))) := by
      funext k
      have : i + Nat.succ k = i + 1 + k := by omega
      rw [this]
    have hrest := ih (i + 1) (fun k hk => by
      have := h (k + 1) (by omega)
      have e : i + 1 + k = i + (k + 1) := by omega
      rw [e]; exact this)
    simp only [Nat.add_zero, Function.comp]
    rw [harg, hrest]

/-! Lemmas connecting set counts computed as size // stride with payload
availability, and loader-level length/content characterizations. -/

theorem acc_sets_payload (bs : List ℕ) (k : ℕ) (hk : k < bs.length / 6008) :
    k * 6008 + 6000 ≤ bs.length := by
  have h1 : k + 1 ≤ bs.length / 6008 := hk
  have h2 : (k + 1) * 6008 ≤ bs.length :=
    (Nat.le_div_iff_mul_le (by omega)).mp h1
  have h3 : (k + 1) * 6008 = k * 6008 + 6008 := by ring
  omega

theorem mic_sets_payload (bs : List ℕ) (k : ℕ) (hk : k < bs.length / 2008) :
    k * 2008 + 2000 ≤ bs.length := by
  have h1 : k + 1 ≤ bs.length / 2008 := hk
  have h2 : (k + 1) * 2008 ≤ bs.length :=
    (Nat.le_div_iff_mul_le (by omega)).mp h1
  have h3 : (k + 1) * 2008 = k * 2008 + 2008 := by ring
  omega

theorem getD_map_of_lt {β γ : Type} (f : β → γ) (d : γ) (e : β) :
    ∀ (l : List β) (i : ℕ), i < l.length → (l.map f).getD i d = f (l.getD i e)
  | [], i, h => by simp at h
  | a :: l, 0, _ => rfl
  | a :: l, i + 1, h =>
    getD_map_of_lt f d e l i (by simp at h; omega)

theorem DatCsvIntegrated.acc_block_len (bs : List ℕ) (b : ℕ)
    (hb : b < bs.length / 6008) :
    (triples (toInt16s (accChunkBytes bs b))).length = 1000 := by
  rw [triples_length, toInt16s_length,
    accChunkBytes_length bs b (acc_sets_payload bs b hb)]

theorem DatCsvIntegrated.load_dat_file_acc_length (bs : List ℕ) :
    (load_dat_file_acc bs).length = (bs.length / 6008) * 1000 := by
  rw [load_dat_file_acc, List.length_map]
  rw [accFullLoop_eq bs (bs.length / 6008) 0
    (fun k hk => by simpa using acc_sets_payload bs k (by omega))]
  simp only [Nat.zero_add]
  exact flatMap_range_length _ 1000 _ (fun b hb => acc_block_len bs b hb)

theorem DatCsvIntegrated.load_dat_file_acc_getD (bs : List ℕ) (i : ℕ)
    (hi : i < (bs.length / 6008) * 1000) :
    (load_dat_file_acc bs).getD i (0, 0, 0) = scaleTriple (accRawTriple bs i) := by
  have hloop : accFullLoop bs (bs.length / 6008) 0 =
      (List.range (bs.length / 6008)).flatMap
        (fun k => triples (toInt16s (accChunkBytes bs k))) := by
    rw [accFullLoop_eq bs (bs.length / 6008) 0
      (fun k hk => by simpa using acc_sets_payload bs k (by omega))]
    simp
  have hlen : (accFullLoop bs (bs.length / 6008) 0).length =
      (bs.length / 6008) * 1000 := by
    rw [hloop]
    exact flatMap_range_length _ 1000 _ (fun b hb => acc_block_len bs b hb)
  rw [load_dat_file_acc, getD_map_of_lt scaleTriple (0, 0, 0) (0, 0, 0) _ i
    (by omega)]
  rw [hloop]
  have hb : i / 1000 < bs.length / 6008 := by omega
  have hj : i % 1000 < 1000 := by omega
  have hsplit : (i / 1000) * 1000 + i % 1000 = i := by omega
  rw [← hsplit]
  rw [flatMap_range_getD _ 1000 (0, 0, 0) _ (i / 1000) (i % 1000)
    (fun a ha => acc_block_len bs a ha) hb hj]
  rw [acc_block_getD bs (i / 1000) (i % 1000) hj
    (acc_sets_payload bs (i / 1000) hb)]

theorem DatCsvIntegrated.load_dat_file_mic_length (bs : List ℕ) :
    (load_dat_file_mic bs).length = (bs.length / 2008) * 1000 := by
  rw [load_dat_file_mic]
  rw [micFullLoop_eq bs (bs.length / 2008) 0
    (fun k hk => by simpa using mic_sets_payload bs k (by omega))]
  simp only [Nat.zero_add]
  refine flatMap_range_length _ 1000 _ (fun b hb => ?_)
  rw [toInt16s_length, micChunkBytes_length bs b (mic_sets_payload bs b hb)]

theorem DatCsvIntegrated.load_dat_file_mic_getD (bs : List ℕ) (i : ℕ)
    (hi : i < (bs.length / 2008) * 1000) :
    (load_dat_file_mic bs).getD i 0 = micRawSample bs i := by
  rw [load_dat_file_mic]
  rw [micFullLoop_eq bs (bs.length / 2008) 0
    (fun k hk => by simpa using mic_sets_payload bs k (by omega))]
  simp only [Nat.zero_add]
  have hb : i / 1000 < bs.length / 2008 := by omega
  have hj : i % 1000 < 1000 := by omega
  have hsplit : (i / 1000) * 1000 + i % 1000 = i := by omega
  rw [← hsplit]
  rw [flatMap_range_getD _ 1000 0 _ (i / 1000) (i % 1000)
    (fun a ha => by
      rw [toInt16s_length, micChunkBytes_length bs a (mic_sets_payload bs a ha)])
    hb hj]
  exact mic_block_getD bs (i / 1000) (i % 1000) hj
    (mic_sets_payload bs (i / 1000) hb)

/-! The full-decode phase of the S3 loaders. -/

theorem S3Gui.acc_rows_length (bs : List ℕ) :
    (accS3Loop bs (bs.length / 6008) 0).length = (bs.length / 6008) * 1000 := by
  rw [accS3Loop_eq bs (bs.length / 6008) 0
    (fun k hk => by simpa using acc_sets_payload bs k (by omega))]
  simp only [Nat.zero_add]
  refine flatMap_range_length _ 1000 _ (fun b hb => ?_)
  rw [List.length_map]
  exact DatCsvIntegrated.acc_block_len bs b hb

theorem S3Gui.acc_rows_getD (bs : List ℕ) (i : ℕ)
    (hi : i < (bs.length / 6008) * 1000) :
    (accS3Loop bs (bs.length / 6008) 0).getD i (0, 0, 0) =
      scaleTriple (accRawTriple bs i) := by
  rw [accS3Loop_eq bs (bs.length / 6008) 0
    (fun k hk => by simpa using acc_sets_payload bs k (by omega))]
  simp only [Nat.zero_add]
  have hb : i / 1000 < bs.length / 6008 := by omega
  have hj : i % 1000 < 1000 := by omega
  have hsplit : (i / 1000) * 1000 + i % 1000 = i := by omega
  rw [← hsplit]
  rw [flatMap_range_getD _ 1000 (0, 0, 0) _ (i / 1000) (i % 1000)
    (fun a ha => by
      rw [List.length_map]
      exact DatCsvIntegrated.acc_block_len bs a ha)
    hb hj]
  rw [getD_map_of_lt scaleTriple (0, 0, 0) (0, 0, 0) _ (i % 1000)
    (by rw [DatCsvIntegrated.acc_block_len bs (i / 1000) hb]; omega)]
  rw [acc_block_getD bs (i / 1000) (i % 1000) hj
    (acc_sets_payload bs (i / 1000) hb)]

theorem S3Gui.mic_rows_length (bs : List ℕ) :
    (micS3Loop bs (bs.length / 2008) 0).length = (bs.length / 2008) * 1000 := by
  rw [micS3Loop_eq bs (bs.length / 2008) 0
    (fun k hk => by simpa using mic_sets_payload bs k (by omega))]
  simp only [Nat.zero_add]
  refine flatMap_range_length _ 1000 _ (fun b hb => ?_)
  rw [toInt16s_length, micChunkBytes_length bs b (mic_sets_payload bs b hb)]

theorem S3Gui.mic_rows_getD (bs : List ℕ) (i : ℕ)
    (hi : i < (bs.length / 2008) * 1000) :
    (micS3Loop bs (bs.length / 2008) 0).getD i 0 = micRawSample bs i := by
  rw [micS3Loop_eq bs (bs.length / 2008) 0
    (fun k hk => by simpa using mic_sets_payload bs k (by omega))]
  simp only [Nat.zero_add]
  have hb : i / 1000 < bs.length / 2008 := by omega
  have hj : i % 1000 < 1000 := by omega
  have hsplit : (i / 1000) * 1000 + i % 1000 = i := by omega
  rw [← hsplit]
  rw [flatMap_range_getD _ 1000 0 _ (i / 1000) (i % 1000)
    (fun a ha => by
      rw [toInt16s_length, micChunkBytes_length bs a (mic_sets_payload bs a ha)])
    hb hj]
  exact mic_block_getD bs (i / 1000) (i % 1000) hj
    (mic_sets_payload bs (i / 1000) hb)

/-- The avail bound i*1000 + len(chunk) of load_mic_dat_from_s3 equals
sets * 1000 whenever the loop ran at least once. -/
theorem S3Gui.mic_avail_eq (bs : List ℕ) (hs : 1 ≤ bs.length / 2008) :
    (bs.length / 2008 - 1) * 1000 +
        (toInt16s (micChunkBytes bs (bs.length / 2008 - 1))).length =
      (bs.length / 2008) * 1000 := by
  have hlast : (bs.length / 2008 - 1) * 2008 + 2000 ≤ bs.length :=
    mic_sets_payload bs (bs.length / 2008 - 1) (by omega)
  rw [toInt16s_length, micChunkBytes_length bs _ hlast]
  have h2 : (2000 : ℕ) / 2 = 1000 := by norm_num
  rw [h2]
  have := Nat.succ_pred_eq_of_pos (show 0 < bs.length / 2008 by omega)
  omega

/-! Lemmas about the per-second sampling step of the S3 loaders. -/

theorem takeWhile_range_eq_filter :
    ∀ (n : ℕ) (p : ℕ → Bool), (∀ a b : ℕ, a ≤ b → p b = true → p a = true) →
      (List.range n).takeWhile p = (List.range n).filter p
  | 0, p, _ => by simp
  | n + 1, p, h => by
    rw [List.range_succ_eq_map]
    by_cases h0 : p 0 = true
    · rw [List.takeWhile_cons_of_pos h0, List.filter_cons_of_pos h0]
      rw [List.takeWhile_map, List.filter_map]
      have hrec := takeWhile_range_eq_filter n (p ∘ Nat.succ)
        (fun a b hab hb => h (Nat.succ a) (Nat.succ b) (by omega) hb)
      rw [hrec]
    · rw [List.takeWhile_cons_of_neg (by simpa using h0),
        List.filter_cons_of_neg (by simpa using h0)]
      have hnil : (List.range n).filter (p ∘ Nat.succ) = [] := by
        rw [List.filter_eq_nil_iff]
        intro a _
        simp only [Function.comp]
        intro hcontra
        exact h0 (h 0 (Nat.succ a) (by omega) hcontra)
      rw [List.filter_map, hnil]
      simp

theorem S3Gui.sampleSeconds_eq_range (rate avail : ℕ) :
    sampleSeconds rate avail =
      List.range (sampleSeconds rate avail).length := by
  have hp := List.takeWhile_prefix
    (l := List.range 5) (fun s => decide (s * rate + 30 ≤ avail))
  have hle : (sampleSeconds rate avail).length ≤ 5 := by
    have := hp.length_le
    simpa [sampleSeconds] using this
  have heq := List.prefix_iff_eq_take.mp hp
  rw [sampleSeconds]
  conv_lhs => rw [heq]
  rw [List.take_range]
  congr 1
  rw [sampleSeconds] at hle
  omega

theorem S3Gui.sampleSeconds_le5 (rate avail : ℕ) :
    (sampleSeconds rate avail).length ≤ 5 := by
  have hp := List.takeWhile_prefix
    (l := List.range 5) (fun s => decide (s * rate + 30 ≤ avail))
  have := hp.length_le
  simpa [sampleSeconds] using this

theorem S3Gui.sampleSeconds_mem_le (rate avail s : ℕ)
    (hs : s < (sampleSeconds rate avail).length) : s * rate + 30 ≤ avail := by
  have hmem : s ∈ sampleSeconds rate avail := by
    rw [sampleSeconds_eq_range rate avail]
    exact List.mem_range.mpr hs
  have := List.mem_takeWhile_imp hmem
  simpa using this

theorem S3Gui.sampleSeconds_filter (rate avail : ℕ) :
    sampleSeconds rate avail =
      (List.range 5).filter (fun s => decide (s * rate + 30 ≤ avail)) := by
  rw [sampleSeconds]
  exact takeWhile_range_eq_filter 5 _ (fun a b hab hb => by
    simp only [decide_eq_true_eq] at hb ⊢
    have : a * rate ≤ b * rate := Nat.mul_le_mul_right rate hab
    omega)

theorem S3Gui.sampleSeconds_len_zero_iff (rate avail : ℕ) :
    (sampleSeconds rate avail).length = 0 ↔ avail < 30 := by
  have hr : List.range 5 = [0, 1, 2, 3, 4] := by decide
  rw [sampleSeconds, hr]
  by_cases h : 30 ≤ avail
  · rw [List.takeWhile_cons_of_pos (by simpa using h)]
    simp only [List.length_cons]
    omega
  · rw [List.takeWhile_cons_of_neg (by simpa using h)]
    simp only [List.length_nil, true_iff]
    omega

/-! Characterization of the windowed read loops of dat_csv.py. -/

theorem DatCsv.micWinLoop_some (bs : List ℕ) :
    ∀ (fuel i : ℕ) (buf out : ℕ → ℤ), micWinLoop bs fuel i buf = some out →
      ∀ idx : ℕ, out idx =
        if i * 1000 ≤ idx ∧ idx < (i + fuel) * 1000 then micRawSample bs idx
        else buf idx
  | 0, i, buf, out, h => by
    simp only [micWinLoop, Option.some.injEq] at h
    subst h
    intro idx
    rw [if_neg (by omega)]
  | fuel + 1, i, buf, out, h => by
    simp only [micWinLoop] at h
    by_cases hc : (toInt16s (micChunkBytes bs i)).length < 1000
    · rw [if_pos hc] at h
      exact absurd h (by simp)
    · rw [if_neg hc] at h
      have hub := micChunkBytes_length_le bs i
      have htl := toInt16s_length (micChunkBytes bs i)
      have hlen : (toInt16s (micChunkBytes bs i)).length = 1000 := by omega
      have hcl : (micChunkBytes bs i).length = 2000 := by omega
      have hbs : i * 2008 + 2000 ≤ bs.length := by
        have h3 : (micChunkBytes bs i).length =
            min 2000 (bs.length - i * 2008) := by
          simp [micChunkBytes]
        rw [hcl] at h3
        omega
      intro idx
      have ih := micWinLoop_some bs fuel (i + 1) _ out h idx
      rw [ih]
      by_cases h1 : (i + 1) * 1000 ≤ idx ∧ idx < (i + 1 + fuel) * 1000
      · rw [if_pos h1, if_pos (by constructor <;> omega)]
      · rw [if_neg h1]
        simp only [writeSeg, hlen]
        by_cases h2 : i * 1000 ≤ idx ∧ idx < i * 1000 + 1000
        · rw [if_pos h2, if_pos (by constructor <;> omega)]
          have hj : idx - i * 1000 < 1000 := by omega
          rw [mic_block_getD bs i (idx - i * 1000) hj hbs]
          congr 1
          omega
        · rw [if_neg h2, if_neg (by omega)]

theorem DatCsv.micWinLoop_none (bs : List ℕ) :
    ∀ (fuel i : ℕ) (buf : ℕ → ℤ),
      (∃ k, k < fuel ∧ (toInt16s (micChunkBytes bs (i + k))).length < 1000) →
      micWinLoop bs fuel i buf = none
  | 0, i, buf, h => by
    obtain ⟨k, hk, _⟩ := h
    omega
  | fuel + 1, i, buf, h => by
    simp only [micWinLoop]
    by_cases hc : (toInt16s (micChunkBytes bs i)).length < 1000
    · rw [if_pos hc]
    · rw [if_neg hc]
      obtain ⟨k, hk, hshort⟩ := h
      have hk0 : k ≠ 0 := by
        intro he
        subst he
        simp only [Nat.add_zero] at hshort
        omega
      exact micWinLoop_none bs fuel (i + 1) _
        ⟨k - 1, by omega, by
          have he : i + 1 + (k - 1) = i + k := by omega
          rw [he]
          exact hshort⟩

theorem DatCsv.accWinLoop_none (bs : List ℕ) (needed : ℕ) :
    ∀ (fuel i total : ℕ) (buf : ℕ → ℤ × ℤ × ℤ),
      (∃ k, k < fuel ∧ (toInt16s (accChunkBytes bs (i + k))).length < 3000) →
      accWinLoop bs needed fuel i total buf = none
  | 0, i, total, buf, h => by
    obtain ⟨k, hk, _⟩ := h
    omega
  | fuel + 1, i, total, buf, h => by
    simp only [accWinLoop]
    by_cases hc : (toInt16s (accChunkBytes bs i)).length < 3000
    · rw [if_pos hc]
    · rw [if_neg hc]
      obtain ⟨k, hk, hshort⟩ := h
      have hk0 : k ≠ 0 := by
        intro he
        subst he
        simp only [Nat.add_zero] at hshort
        omega
      exact accWinLoop_none bs needed fuel (i + 1) _ _
        ⟨k - 1, by omega, by
          have he : i + 1 + (k - 1) = i + k := by omega
          rw [he]
          exact hshort⟩

/-! Closed form of the result-collection loop. -/

theorem S3Gui.drain_attempted {α : Type} (fbs : ℕ) (ok : ℕ → Bool) (rc : α → ℕ) :
    ∀ (fs : List (BatchFuture α)) (st : DrainState α),
      (fs.foldl (drainStep fbs ok rc) st).attempted =
        st.attempted ++ fs.map (fun f => f.batchIdx)
  | [], st => by simp
  | f :: fs, st => by
    rw [List.foldl_cons, drain_attempted fbs ok rc fs (drainStep fbs ok rc st f)]
    by_cases hok : ok f.batchIdx = true
    · simp [drainStep, if_pos hok, List.append_assoc]
    · simp [drainStep, if_neg hok, List.append_assoc]

theorem S3Gui.drain_inserts {α : Type} (fbs : ℕ) (ok : ℕ → Bool) (rc : α → ℕ) :
    ∀ (fs : List (BatchFuture α)) (st : DrainState α),
      (fs.foldl (drainStep fbs ok rc) st).inserts =
        st.inserts ++
          (fs.filter (fun f => ok f.batchIdx)).map (fun f => (f.batchIdx, f.value))
  | [], st => by simp
  | f :: fs, st => by
    rw [List.foldl_cons, drain_inserts fbs ok rc fs (drainStep fbs ok rc st f)]
    by_cases hok : ok f.batchIdx = true
    · simp [drainStep, if_pos hok, List.filter_cons, hok, List.append_assoc]
    · simp only [Bool.not_eq_true] at hok
      simp [drainStep, hok, List.filter_cons]

theorem S3Gui.drain_failedLog {α : Type} (fbs : ℕ) (ok : ℕ → Bool) (rc : α → ℕ) :
    ∀ (fs : List (BatchFuture α)) (st : DrainState α),
      (fs.foldl (drainStep fbs ok rc) st).failedLog =
        st.failedLog ++
          (fs.filter (fun f => !ok f.batchIdx)).map (fun f => f.batchIdx)
  | [], st => by simp
  | f :: fs, st => by
    rw [List.foldl_cons, drain_failedLog fbs ok rc fs (drainStep fbs ok rc st f)]
    by_cases hok : ok f.batchIdx = true
    · simp [drainStep, if_pos hok, List.filter_cons, hok]
    · simp only [Bool.not_eq_true] at hok
      simp [drainStep, hok, List.filter_cons, List.append_assoc]

theorem S3Gui.drain_processed {α : Type} (fbs : ℕ) (ok : ℕ → Bool) (rc : α → ℕ) :
    ∀ (fs : List (BatchFuture α)) (st : DrainState α),
      (fs.foldl (drainStep fbs ok rc) st).stats.processed_files =
        st.stats.processed_files +
          fbs * (fs.filter (fun f => ok f.batchIdx)).length
  | [], st => by simp
  | f :: fs, st => by
    rw [List.foldl_cons, drain_processed fbs ok rc fs (drainStep fbs ok rc st f)]
    by_cases hok : ok f.batchIdx = true
    · simp only [drainStep, if_pos hok, List.filter_cons, hok, if_true,
        List.length_cons]
      ring
    · simp only [Bool.not_eq_true] at hok
      simp [drainStep, hok, List.filter_cons]

theorem S3Gui.drain_records {α : Type} (fbs : ℕ) (ok : ℕ → Bool) (rc : α → ℕ) :
    ∀ (fs : List (BatchFuture α)) (st : DrainState α),
      (fs.foldl (drainStep fbs ok rc) st).stats.total_records =
        st.stats.total_records +
          ((fs.filter (fun f => ok f.batchIdx)).map (fun f => rc f.value)).sum
  | [], st => by simp
  | f :: fs, st => by
    rw [List.foldl_cons, drain_records fbs ok rc fs (drainStep fbs ok rc st f)]
    by_cases hok : ok f.batchIdx = true
    · simp only [drainStep, if_pos hok, List.filter_cons, hok, if_true,
        List.map_cons, List.sum_cons]
      ring
    · simp only [Bool.not_eq_true] at hok
      simp [drainStep, hok, List.filter_cons]

/-- The submitted futures carry the batch indices 0..n-1 in order. -/
theorem S3Gui.submitAll_map_idx {α : Type} (decode : ℕ → α) (ct : ℕ → ℕ) (n : ℕ) :
    (submitAll decode ct n).map (fun f => f.batchIdx) = List.range n := by
  rw [submitAll, List.map_map]
  simp [Function.comp_def]

theorem S3Gui.submitAll_filter {α : Type} (decode : ℕ → α) (ct : ℕ → ℕ) (n : ℕ)
    (p : ℕ → Bool) :
    (submitAll decode ct n).filter (fun f => p f.batchIdx) =
      ((List.range n).filter p).map (fun b => ⟨b, ct b, decode b⟩) := by
  rw [submitAll, List.filter_map]
  simp [Function.comp_def]

/-! The sort key order of the catalog: totality, transitivity, antisymmetry
of the Python tuple/string comparison. -/

theorem charToNat_inj (a b : Char) (h : a.toNat = b.toNat) : a = b := by
  apply Char.ext
  apply UInt32.ext
  exact h

theorem strLeAux_total : ∀ a b : List Char,
    S3Gui.strLeAux a b = true ∨ S3Gui.strLeAux b a = true
  | [], b => Or.inl rfl
  | _ :: _, [] => Or.inr rfl
  | a :: as, b :: bs => by
    rcases Nat.lt_trichotomy a.toNat b.toNat with h | h | h
    · left
      simp [S3Gui.strLeAux, h]
    · have h1 : ¬ a.toNat < b.toNat := by omega
      have h2 : ¬ b.toNat < a.toNat := by omega
      rcases strLeAux_total as bs with hh | hh
      · left
        simp [S3Gui.strLeAux, h1, h2, hh]
      · right
        simp [S3Gui.strLeAux, h1, h2, hh]
    · right
      simp [S3Gui.strLeAux, h]

theorem strLeAux_trans : ∀ a b c : List Char, S3Gui.strLeAux a b = true →
    S3Gui.strLeAux b c = true → S3Gui.strLeAux a c = true
  | [], _, _, _, _ => rfl
  | _ :: _, [], _, h1, _ => by simp [S3Gui.strLeAux] at h1
  | _ :: _, _ :: _, [], _, h2 => by simp [S3Gui.strLeAux] at h2
  | a :: as, b :: bs, c :: cs, h1, h2 => by
    simp only [S3Gui.strLeAux] at h1 h2 ⊢
    rcases Nat.lt_trichotomy a.toNat b.toNat with hab | hab | hab <;>
      rcases Nat.lt_trichotomy b.toNat c.toNat with hbc | hbc | hbc
    · rw [if_pos (by omega)]
    · rw [if_pos (by omega)]
    · rw [if_neg (by omega), if_pos hbc] at h2
      simp at h2
    · rw [if_pos (by omega)]
    · rw [if_neg (by omega), if_neg (by omega)] at h1 h2 ⊢
      exact strLeAux_trans as bs cs h1 h2
    · rw [if_neg (by omega), if_pos hbc] at h2
      simp at h2
    · rw [if_neg (by omega), if_pos hab] at h1
      simp at h1
    · rw [if_neg (by omega), if_pos (by omega)] at h1
      simp at h1
    · rw [if_neg (by omega), if_pos (by omega)] at h1
      simp at h1

theorem strLeAux_antisymm : ∀ a b : List Char, S3Gui.strLeAux a b = true →
    S3Gui.strLeAux b a = true → a = b
  | [], [], _, _ => rfl
  | [], _ :: _, _, h2 => by simp [S3Gui.strLeAux] at h2
  | _ :: _, [], h1, _ => by simp [S3Gui.strLeAux] at h1
  | a :: as, b :: bs, h1, h2 => by
    simp only [S3Gui.strLeAux] at h1 h2
    rcases Nat.lt_trichotomy a.toNat b.toNat with hab | hab | hab
    · rw [if_neg (by omega), if_pos hab] at h2
      simp at h2
    · rw [if_neg (by omega), if_neg (by omega)] at h1 h2
      have heq := charToNat_inj a b hab
      rw [heq, strLeAux_antisymm as bs h1 h2]
    · rw [if_neg (by omega), if_pos hab] at h1
      simp at h1

theorem fileLe_total (a b : PyStr × PyStr) :
    S3Gui.fileLeR a b ∨ S3Gui.fileLeR b a := by
  rw [S3Gui.fileLeR, S3Gui.fileLeR, S3Gui.fileLe, S3Gui.fileLe]
  by_cases h : a.1 = b.1
  · rw [if_pos h, if_pos h.symm]
    exact strLeAux_total a.2 b.2
  · rw [if_neg h, if_neg (fun he => h he.symm)]
    exact strLeAux_total a.1 b.1

theorem fileLe_trans (a b c : PyStr × PyStr) (h1 : S3Gui.fileLeR a b)
    (h2 : S3Gui.fileLeR b c) : S3Gui.fileLeR a c := by
  rw [S3Gui.fileLeR, S3Gui.fileLe] at h1 h2 ⊢
  by_cases hab : a.1 = b.1 <;> by_cases hbc : b.1 = c.1
  · rw [if_pos hab] at h1
    rw [if_pos hbc] at h2
    rw [if_pos (hab.trans hbc)]
    exact strLeAux_trans a.2 b.2 c.2 h1 h2
  · rw [if_pos hab] at h1
    rw [if_neg hbc] at h2
    rw [if_neg (fun he => hbc (hab ▸ he)), hab]
    exact h2
  · rw [if_neg hab] at h1
    rw [if_pos hbc] at h2
    rw [if_neg (fun he => hab (he.trans hbc.symm)), ← hbc]
    exact h1
  · rw [if_neg hab] at h1
    rw [if_neg hbc] at h2
    have hac : S3Gui.strLeAux a.1 c.1 = true := strLeAux_trans a.1 b.1 c.1 h1 h2
    by_cases he : a.1 = c.1
    · exfalso
      apply hab
      apply strLeAux_antisymm a.1 b.1 h1
      rw [he]
      exact h2
    · rw [if_neg he]
      exact hac

theorem fileLe_antisymm (a b : PyStr × PyStr) (h1 : S3Gui.fileLeR a b)
    (h2 : S3Gui.fileLeR b a) : a = b := by
  rw [S3Gui.fileLeR, S3Gui.fileLe] at h1 h2
  by_cases h : a.1 = b.1
  · rw [if_pos h] at h1
    rw [if_pos h.symm] at h2
    have h22 := strLeAux_antisymm a.2 b.2 h1 h2
    obtain ⟨a1, a2⟩ := a
    obtain ⟨b1, b2⟩ := b
    simp only at h h22
    rw [h, h22]
  · rw [if_neg h] at h1
    rw [if_neg (fun he => h he.symm)] at h2
    exact absurd (strLeAux_antisymm a.1 b.1 h1 h2) h

/-! Lemmas about Python int() and str.isdigit on split fields. -/

theorem pyInt_of_digits (cs : PyStr) (h : strIsdigit cs = true) :
    pyInt cs = some ((digitsToNat cs : ℤ)) := by
  match cs with
  | [] => simp [strIsdigit] at h
  | c :: rest =>
    simp only [strIsdigit, Bool.and_eq_true, List.all_cons, List.isEmpty_cons,
      Bool.not_false] at h
    obtain ⟨-, hc, hrest⟩ := h
    have hm : ¬ c = '-' := by
      intro he
      rw [he] at hc
      exact absurd hc (by decide)
    have hp : ¬ c = '+' := by
      intro he
      rw [he] at hc
      exact absurd hc (by decide)
    simp only [pyInt, if_neg hm, if_neg hp, List.all_cons, hc, hrest,
      Bool.and_self, if_pos]

theorem strIsdigit_false_of_pyInt_none (cs : PyStr) (h : pyInt cs = none) :
    strIsdigit cs = false := by
  by_contra hc
  have ht : strIsdigit cs = true := by
    cases hv : strIsdigit cs
    · exact absurd hv hc
    · rfl
  rw [pyInt_of_digits cs ht] at h
  exact absurd h (by simp)

/-! Lemmas about the catalog scan. -/

theorem S3Gui.keyAccept_true_iff (s e : PyDateTime) (key : PyStr) :
    keyAccept s e key = .ok true ↔
      ((".dat".data).isSuffixOf key = true ∧
        ∃ d, parse_filename_date (basename key) = .ok (some d) ∧
          (dtLe s d && dtLe d e) = true) := by
  rw [keyAccept]
  by_cases hs : (".dat".data).isSuffixOf key = true
  · rw [if_pos hs]
    cases hp : parse_filename_date (basename key) with
    | error u =>
      simp [hs, hp]
    | ok od =>
      cases od with
      | none => simp [hs, hp]
      | some d =>
        simp only [hs, true_and]
        constructor
        · intro h
          exact ⟨d, rfl, by
            have := Except.ok.inj h
            exact this⟩
        · intro ⟨d2, hd2, hc2⟩
          have : d2 = d := by
            have := Except.ok.inj hd2
            exact (Option.some.inj this).symm
          rw [this] at hc2
          rw [hc2]
  · rw [if_neg hs]
    constructor
    · intro h
      have := Except.ok.inj h
      simp at this
    · intro ⟨hsuf, _⟩
      exact absurd hsuf hs

theorem S3Gui.keyKeep_true_iff (s e : PyDateTime) (p : PyStr × PyStr) :
    keyKeep s e p = true ↔ keyAccept s e p.2 = .ok true := by
  rw [keyKeep]
  cases hk : keyAccept s e p.2 with
  | error u => simp [hk]
  | ok b =>
    cases b
    · simp
    · simp

theorem S3Gui.collectFiles_error_iff (s e : PyDateTime) :
    ∀ l : List (PyStr × PyStr), collectFiles s e l = .error () ↔
      ∃ p ∈ l, keyAccept s e p.2 = .error ()
  | [] => by simp [collectFiles]
  | p :: rest => by
    rw [collectFiles]
    cases hk : keyAccept s e p.2 with
    | error u =>
      cases u
      simp [hk]
    | ok b =>
      cases hr : collectFiles s e rest with
      | error u =>
        cases u
        have hex := (collectFiles_error_iff s e rest).mp hr
        simp only [true_iff]
        obtain ⟨q, hq, hqe⟩ := hex
        exact ⟨q, List.mem_cons_of_mem p hq, hqe⟩
      | ok t =>
        have hnex := (collectFiles_error_iff s e rest).not.mp (by simp [hr])
        simp only [List.mem_cons]
        constructor
        · intro h
          simp at h
        · intro ⟨q, hq, hqe⟩
          rcases hq with hq | hq
          · rw [hq] at hqe
            rw [hqe] at hk
            exact absurd hk (by simp)
          · exact absurd ⟨q, hq, hqe⟩ hnex

theorem S3Gui.collectFiles_ok_eq (s e : PyDateTime) :
    ∀ (l : List (PyStr × PyStr)) (t : List (PyStr × PyStr)),
      collectFiles s e l = .ok t → t = l.filter (keyKeep s e)
  | [], t, h => by
    simp only [collectFiles, Except.ok.injEq] at h
    rw [← h]
    rfl
  | p :: rest, t, h => by
    rw [collectFiles] at h
    cases hk : keyAccept s e p.2 with
    | error u =>
      rw [hk] at h
      exact absurd h (by simp)
    | ok b =>
      rw [hk] at h
      cases hr : collectFiles s e rest with
      | error u =>
        rw [hr] at h
        exact absurd h (by simp)
      | ok t0 =>
        rw [hr] at h
        have ht := Except.ok.inj h
        have hrec := collectFiles_ok_eq s e rest t0 hr
        rw [List.filter_cons, ← ht, hrec]
        cases hb : b
        · have hkk : keyKeep s e p = false := by
            rw [hb] at hk
            simp [keyKeep, hk]
          simp [hkk]
        · have hkk : keyKeep s e p = true := by
            rw [hb] at hk
            simp [keyKeep, hk]
          simp [hkk]

theorem S3Gui.collectFiles_ok_mem (s e : PyDateTime)
    (l t : List (PyStr × PyStr)) (h : collectFiles s e l = .ok t)
    (x : PyStr × PyStr) :
    x ∈ t ↔ x ∈ l ∧ keyAccept s e x.2 = .ok true := by
  rw [collectFiles_ok_eq s e l t h, List.mem_filter, keyKeep_true_iff]

/-! Discovery: sortedness, membership and listing-order independence. -/

theorem S3Gui.discover_ok_sorted (start endd : PyDateTime)
    (listing res : List (PyStr × PyStr))
    (h : discoverFiles start endd listing = .ok res) :
    List.Sorted fileLeR res := by
  rw [discoverFiles] at h
  cases hc : collectFiles start (endOfDay endd) listing with
  | error u =>
    rw [hc] at h
    exact absurd h (by simp)
  | ok l =>
    rw [hc] at h
    have he := Except.ok.inj h
    rw [← he]
    exact @List.sorted_insertionSort _ fileLeR _ ⟨fileLe_total⟩
      ⟨fun a b c => fileLe_trans a b c⟩ l

theorem S3Gui.discover_ok_mem (start endd : PyDateTime)
    (listing res : List (PyStr × PyStr))
    (h : discoverFiles start endd listing = .ok res) (x : PyStr × PyStr) :
    x ∈ res ↔ x ∈ listing ∧ keyAccept start (endOfDay endd) x.2 = .ok true := by
  rw [discoverFiles] at h
  cases hc : collectFiles start (endOfDay endd) listing with
  | error u =>
    rw [hc] at h
    exact absurd h (by simp)
  | ok l =>
    rw [hc] at h
    have he := Except.ok.inj h
    rw [← he]
    rw [(List.perm_insertionSort fileLeR l).mem_iff]
    exact collectFiles_ok_mem start (endOfDay endd) listing l hc x

theorem S3Gui.discover_perm_invariant (start endd : PyDateTime)
    (l1 l2 res : List (PyStr × PyStr)) (hperm : l1.Perm l2)
    (h1 : discoverFiles start endd l1 = .ok res) :
    discoverFiles start endd l2 = .ok res := by
  rw [discoverFiles] at h1 ⊢
  cases hc1 : collectFiles start (endOfDay endd) l1 with
  | error u =>
    rw [hc1] at h1
    exact absurd h1 (by simp)
  | ok t1 =>
    rw [hc1] at h1
    have hres := Except.ok.inj h1
    cases hc2 : collectFiles start (endOfDay endd) l2 with
    | error u =>
      cases u
      obtain ⟨p, hp, hpe⟩ :=
        (collectFiles_error_iff start (endOfDay endd) l2).mp hc2
      have hmem : p ∈ l1 := hperm.mem_iff.mpr hp
      have herr := (collectFiles_error_iff start (endOfDay endd) l1).mpr
        ⟨p, hmem, hpe⟩
      rw [herr] at hc1
      exact absurd hc1 (by simp)
    | ok t2 =>
      have e1 := collectFiles_ok_eq start (endOfDay endd) l1 t1 hc1
      have e2 := collectFiles_ok_eq start (endOfDay endd) l2 t2 hc2
      have hpt : t2.Perm t1 := by
        rw [e1, e2]
        exact (hperm.filter (keyKeep start (endOfDay endd))).symm
      have hchain : (List.insertionSort fileLeR t2).Perm
          (List.insertionSort fileLeR t1) :=
        ((List.perm_insertionSort fileLeR t2).trans hpt).trans
          (List.perm_insertionSort fileLeR t1).symm
      have hsorted2 := @List.sorted_insertionSort _ fileLeR _ ⟨fileLe_total⟩
        ⟨fun a b c => fileLe_trans a b c⟩ t2
      have hsorted1 := @List.sorted_insertionSort _ fileLeR _ ⟨fileLe_total⟩
        ⟨fun a b c => fileLe_trans a b c⟩ t1
      have heq := @List.eq_of_perm_of_sorted _ fileLeR
        ⟨fun a b => fileLe_antisymm a b⟩ _ _ hchain hsorted2 hsorted1
      show Except.ok (List.insertionSort fileLeR t2) = Except.ok res
      rw [heq, hres]

/-! Rejection lemmas for the filename timestamp parsing. -/

theorem dtValid_hour24 (y mo d mi s : ℤ) : dtValid y mo d 24 mi s = false := by
  simp [dtValid]

theorem mkDatetime_hour24 (y mo d mi s : ℤ) :
    mkDatetime y mo d 24 mi s = none := by
  rw [mkDatetime, dtValid_hour24]
  simp

theorem extract_none_of_hour24 (name : PyStr)
    (hh : (splitOnChar '_' name).getD 1 [] = "24".data) :
    DatCsvIntegrated.extract_datetime_from_filename name = none := by
  rw [DatCsvIntegrated.extract_datetime_from_filename]
  by_cases h4 : 4 ≤ (splitOnChar '_' name).length
  · rw [if_pos h4]
    by_cases hd : (((splitOnChar '_' name).getD 0 []).length = 8 &&
        strIsdigit ((splitOnChar '_' name).getD 0 [])) = true
    · rw [if_pos hd]
      have hv : digitsToNat ("24".data) = 24 := by decide
      rw [if_neg]
      intro hcond
      rw [hh, hv] at hcond
      simp at hcond
    · rw [if_neg hd]
  · rw [if_neg h4]

theorem parse_not_some_of_hour24 (name : PyStr)
    (hh : (splitOnChar '_' name).getD 1 [] = "24".data) (d : PyDateTime) :
    S3Gui.parse_filename_date name ≠ .ok (some d) := by
  rw [S3Gui.parse_filename_date]
  by_cases h4 : 4 ≤ (splitOnChar '_' name).length
  · rw [if_pos h4, hh]
    have hv : pyInt ("24".data) = some 24 := by decide
    rw [hv]
    cases h2 : pyInt ((splitOnChar '_' name).getD 2 []) <;>
      cases h3 : pyInt ((splitOnChar '_' name).getD 3 []) <;>
      cases hy : pyInt (((splitOnChar '_' name).getD 0 []).take 4) <;>
      cases hmo : pyInt ((((splitOnChar '_' name).getD 0 []).drop 4).take 2) <;>
      cases hdd : pyInt ((((splitOnChar '_' name).getD 0 []).drop 6).take 2) <;>
      simp only [h2, h3, hy, hmo, hdd] <;>
      simp [mkDatetime_hour24]
  · rw [if_neg h4]
    simp

theorem extract_none_of_bad_minute (name m : PyStr)
    (hm : (splitOnChar '_' name).getD 2 [] = m) (hnone : pyInt m = none) :
    DatCsvIntegrated.extract_datetime_from_filename name = none := by
  have hdig : strIsdigit m = false := strIsdigit_false_of_pyInt_none m hnone
  rw [DatCsvIntegrated.extract_datetime_from_filename]
  by_cases h4 : 4 ≤ (splitOnChar '_' name).length
  · rw [if_pos h4]
    by_cases hd : (((splitOnChar '_' name).getD 0 []).length = 8 &&
        strIsdigit ((splitOnChar '_' name).getD 0 [])) = true
    · rw [if_pos hd]
      rw [if_neg]
      intro hcond
      rw [hm, hdig] at hcond
      simp at hcond
    · rw [if_neg hd]
  · rw [if_neg h4]

theorem parse_not_some_of_bad_minute (name m : PyStr)
    (hm : (splitOnChar '_' name).getD 2 [] = m) (hnone : pyInt m = none)
    (d : PyDateTime) : S3Gui.parse_filename_date name ≠ .ok (some d) := by
  rw [S3Gui.parse_filename_date]
  by_cases h4 : 4 ≤ (splitOnChar '_' name).length
  · rw [if_pos h4, hm, hnone]
    cases h1 : pyInt ((splitOnChar '_' name).getD 1 []) <;>
      cases h3 : pyInt ((splitOnChar '_' name).getD 3 []) <;>
      cases hy : pyInt (((splitOnChar '_' name).getD 0 []).take 4) <;>
      cases hmo : pyInt ((((splitOnChar '_' name).getD 0 []).drop 4).take 2) <;>
      cases hdd : pyInt ((((splitOnChar '_' name).getD 0 []).drop 6).take 2) <;>
      simp only [h1, h3, hy, hmo, hdd] <;>
      simp
  · rw [if_neg h4]
    simp

/-- C1: for every ACC capture whose byte length is exactly n * 6008,
full-file decode (ConversionWorker.load_dat_file_acc of
dat_csv_integerated.py, and the full-decode phase of
S3ToTimescaleDBApp.load_acc_dat_from_s3) returns exactly n * 1000 sample
rows, and row i equals the file's i-th little-endian int16 (x, y, z)
triple multiplied by 0.000488. -/
theorem acc_full_decode_exact_blocks (bs : List ℕ) (n : ℕ)
    (h : bs.length = n * 6008) :
    (DatCsvIntegrated.load_dat_file_acc bs).length = n * 1000 ∧
    (S3Gui.accS3Loop bs (bs.length / 6008) 0).length = n * 1000 ∧
    ∀ i, i < n * 1000 →
      (DatCsvIntegrated.load_dat_file_acc bs).getD i (0, 0, 0) =
        (((accRawTriple bs i).1 : ℚ) * scaleFactor,
         ((accRawTriple bs i).2.1 : ℚ) * scaleFactor,
         ((accRawTriple bs i).2.2 : ℚ) * scaleFactor) ∧
      (S3Gui.accS3Loop bs (bs.length / 6008) 0).getD i (0, 0, 0) =
        (((accRawTriple bs i).1 : ℚ) * scaleFactor,
         ((accRawTriple bs i).2.1 : ℚ) * scaleFactor,
         ((accRawTriple bs i).2.2 : ℚ) * scaleFactor) := by
  have hdiv : bs.length / 6008 = n := by omega
  refine ⟨?_, ?_, fun i hi => ⟨?_, ?_⟩⟩
  · rw [DatCsvIntegrated.load_dat_file_acc_length, hdiv]
  · rw [S3Gui.acc_rows_length, hdiv]
  · rw [DatCsvIntegrated.load_dat_file_acc_getD bs i (by omega)]
    rfl
  · rw [S3Gui.acc_rows_getD bs i (by omega)]
    rfl

/-- Witness for C1 at a concrete one-block capture of bytes 0x01: the byte
pair (1, 1) decodes to the int16 value 257. -/
theorem acc_full_decode_exact_blocks_concrete :
    (DatCsvIntegrated.load_dat_file_acc (List.replicate 6008 1)).length = 1000 ∧
    (DatCsvIntegrated.load_dat_file_acc (List.replicate 6008 1)).getD 0 (0, 0, 0) =
      ((257 : ℚ) * scaleFactor, (257 : ℚ) * scaleFactor, (257 : ℚ) * scaleFactor) := by
  have h := acc_full_decode_exact_blocks (List.replicate 6008 1) 1
    (by rw [List.length_replicate])
  refine ⟨h.1, ?_⟩
  have h2 := (h.2.2 0 (by omega)).1
  rw [h2]
  have hr : accRawTriple (List.replicate 6008 1) 0 = (257, 257, 257) := by decide
  rw [hr]
  norm_num

/-- C8 counterexample: a 3000-byte ACC capture (n = 0, r = 3000) holds 500
complete (x, y, z) triples in its trailing partial block, yet full-file
decode returns 0 rows - the claim's "keeping exactly the complete triples
present in the trailing partial block" (which predicts 500 rows) fails. -/
theorem acc_partial_tail_dropped :
    (DatCsvIntegrated.load_dat_file_acc (List.replicate 3000 0)).length = 0 ∧
    (3000 % 6008) / 6 = 500 := by
  constructor
  · rw [DatCsvIntegrated.load_dat_file_acc_length, List.length_replicate]
  · norm_num

/-- C8 (amended): for every ACC capture of byte length n * 6008 + r with
0 < r < 6008, full-file decode returns exactly n * 1000 rows - the samples
of the n complete blocks, scaled - and the trailing partial block is
dropped entirely, complete triples included. -/
theorem acc_full_decode_partial_block (bs : List ℕ) (n r : ℕ)
    (hlen : bs.length = n * 6008 + r) (hr0 : 0 < r) (hr : r < 6008) :
    (DatCsvIntegrated.load_dat_file_acc bs).length = n * 1000 ∧
    ∀ i, i < n * 1000 →
      (DatCsvIntegrated.load_dat_file_acc bs).getD i (0, 0, 0) =
        (((accRawTriple bs i).1 : ℚ) * scaleFactor,
         ((accRawTriple bs i).2.1 : ℚ) * scaleFactor,
         ((accRawTriple bs i).2.2 : ℚ) * scaleFactor) := by
  have hdiv : bs.length / 6008 = n := by omega
  refine ⟨?_, fun i hi => ?_⟩
  · rw [DatCsvIntegrated.load_dat_file_acc_length, hdiv]
  · rw [DatCsvIntegrated.load_dat_file_acc_getD bs i (by omega)]
    rfl

/-- Witness for C8 at a concrete 6016-byte capture (one complete block plus
an 8-byte remainder). -/
theorem acc_full_decode_partial_block_concrete :
    (DatCsvIntegrated.load_dat_file_acc (List.replicate 6016 1)).length = 1000 :=
  (acc_full_decode_partial_block (List.replicate 6016 1) 1 8
    (by rw [List.length_replicate]) (by norm_num) (by norm_num)).1

/-- C7 counterexample: a 2000-byte MIC stream contains 1000 complete int16
samples (its single partial block), yet full-file decode returns 0 samples;
and the S3 MIC loader raises (NameError) on a 100-byte stream instead of
returning an empty result. -/
theorem full_decode_drops_tail_and_s3_mic_raises :
    (DatCsvIntegrated.load_dat_file_mic (List.replicate 2000 0)).length = 0 ∧
    (List.replicate 2000 (0 : ℕ)).length / 2 = 1000 ∧
    S3Gui.load_mic_dat_from_s3 (List.replicate 100 0) = .error () := by
  refine ⟨?_, by rw [List.length_replicate], ?_⟩
  · rw [DatCsvIntegrated.load_dat_file_mic_length, List.length_replicate]
  · rw [S3Gui.load_mic_dat_from_s3]
    rw [List.length_replicate]
    rw [if_pos (by norm_num)]

/-- C7 (amended): full-file MIC decode of dat_csv_integerated.py is total
and never raises: it returns exactly the floor(size / 2008) complete
blocks' samples (raw int16 values in block-then-sample order), dropping the
whole trailing partial block even when it contains complete samples.  The
S3 MIC loader additionally raises on an input shorter than one complete
block (and only then). -/
theorem full_decode_total_complete_blocks (bs : List ℕ) :
    (DatCsvIntegrated.load_dat_file_mic bs).length = (bs.length / 2008) * 1000 ∧
    (∀ i, i < (bs.length / 2008) * 1000 →
      (DatCsvIntegrated.load_dat_file_mic bs).getD i 0 = micRawSample bs i) ∧
    (S3Gui.load_mic_dat_from_s3 bs = .error () ↔ bs.length < 2008) := by
  refine ⟨DatCsvIntegrated.load_dat_file_mic_length bs,
    fun i hi => DatCsvIntegrated.load_dat_file_mic_getD bs i hi, ?_⟩
  constructor
  · intro h
    by_cases hs : bs.length / 2008 = 0
    · omega
    · rw [S3Gui.load_mic_dat_from_s3] at h
      rw [if_neg hs] at h
      exact absurd h (by simp)
  · intro h
    rw [S3Gui.load_mic_dat_from_s3]
    rw [if_pos (by omega)]

/-- Witness for C7 at a concrete one-block MIC capture and a concrete
sub-block S3 input. -/
theorem full_decode_total_complete_blocks_concrete :
    (DatCsvIntegrated.load_dat_file_mic (List.replicate 2008 3)).length = 1000 ∧
    S3Gui.load_mic_dat_from_s3 (List.replicate 42 0) = .error () := by
  constructor
  · have h := (full_decode_total_complete_blocks (List.replicate 2008 3)).1
    rw [List.length_replicate] at h
    norm_num at h
    exact h
  · exact (full_decode_total_complete_blocks (List.replicate 42 0)).2.2.mpr
      (by rw [List.length_replicate]; norm_num)

/-! The per-second sampling applied to a decoded row list. -/

theorem sampled_flatMap_length {β : Type} (rows : List β) (rate avail : ℕ)
    (hav : avail ≤ rows.length) :
    ((S3Gui.sampleSeconds rate avail).flatMap
        (fun s => (rows.drop (s * rate)).take 30)).length =
      30 * (S3Gui.sampleSeconds rate avail).length := by
  conv_lhs => rw [S3Gui.sampleSeconds_eq_range]
  rw [flatMap_range_length _ 30 _ (fun s hs => by
    have hle := S3Gui.sampleSeconds_mem_le rate avail s hs
    simp only [List.length_take, List.length_drop]
    omega)]
  ring

theorem sampled_flatMap_getD {β : Type} (rows : List β) (rate avail : ℕ)
    (hav : avail ≤ rows.length) (d : β) (s j : ℕ) (hj : j < 30)
    (hs : s < (S3Gui.sampleSeconds rate avail).length) :
    ((S3Gui.sampleSeconds rate avail).flatMap
        (fun s => (rows.drop (s * rate)).take 30)).getD (s * 30 + j) d =
      rows.getD (s * rate + j) d := by
  conv_lhs => rw [S3Gui.sampleSeconds_eq_range]
  rw [flatMap_range_getD _ 30 d _ s j (fun a ha => by
    have hle := S3Gui.sampleSeconds_mem_le rate avail a ha
    simp only [List.length_take, List.length_drop]
    omega) hs hj]
  rw [List.getD_eq_getElem?_getD, List.getElem?_take, if_pos hj,
    List.getElem?_drop, ← List.getD_eq_getElem?_getD]

theorem sample_mem_count (rate avail s : ℕ) (hs5 : s < 5)
    (hp : s * rate + 30 ≤ avail) :
    s < (S3Gui.sampleSeconds rate avail).length := by
  have hmem : s ∈ S3Gui.sampleSeconds rate avail := by
    rw [S3Gui.sampleSeconds_filter]
    rw [List.mem_filter]
    exact ⟨List.mem_range.mpr hs5, by simpa using hp⟩
  rw [S3Gui.sampleSeconds_eq_range] at hmem
  exact List.mem_range.mp hmem

/-- C2 (amended): both S3 loaders return at most 150 samples - the first 30
samples of each of the first (up to five) consecutive one-second intervals,
at the profile's nominal rate, whose leading 30 samples lie inside the
decoded data.  The ACC result is empty iff the file decodes to fewer than
30 samples (not: fewer than one second's worth); the MIC loader raises on a
file shorter than one complete block, and any MIC result it does return
holds at least 30 samples. -/
theorem s3_loaders_sample_at_most_150 (bs : List ℕ) :
    ((S3Gui.load_acc_dat_from_s3 bs).length =
        30 * ((List.range 5).filter
          (fun s => decide (s * 1666 + 30 ≤ (bs.length / 6008) * 1000))).length) ∧
    (S3Gui.load_acc_dat_from_s3 bs).length ≤ 150 ∧
    (S3Gui.load_acc_dat_from_s3 bs = [] ↔ (bs.length / 6008) * 1000 < 30) ∧
    (∀ s j, j < 30 → s < 5 → s * 1666 + 30 ≤ (bs.length / 6008) * 1000 →
      (S3Gui.load_acc_dat_from_s3 bs).getD (s * 30 + j) (0, 0, 0) =
        scaleTriple (accRawTriple bs (s * 1666 + j))) ∧
    (bs.length < 2008 → S3Gui.load_mic_dat_from_s3 bs = .error ()) ∧
    (∀ l, S3Gui.load_mic_dat_from_s3 bs = .ok l →
      (l.length = 30 * ((List.range 5).filter
          (fun s => decide (s * 8000 + 30 ≤ (bs.length / 2008) * 1000))).length) ∧
      l.length ≤ 150 ∧ l ≠ [] ∧
      (∀ s j, j < 30 → s < 5 → s * 8000 + 30 ≤ (bs.length / 2008) * 1000 →
        l.getD (s * 30 + j) 0 = micRawSample bs (s * 8000 + j))) := by
  have hrl := S3Gui.acc_rows_length bs
  have hacc : S3Gui.load_acc_dat_from_s3 bs =
      (S3Gui.sampleSeconds 1666 ((bs.length / 6008) * 1000)).flatMap
        (fun s => ((S3Gui.accS3Loop bs (bs.length / 6008) 0).drop (s * 1666)).take 30) := by
    rw [S3Gui.load_acc_dat_from_s3, hrl]
  have hlen : (S3Gui.load_acc_dat_from_s3 bs).length =
      30 * (S3Gui.sampleSeconds 1666 ((bs.length / 6008) * 1000)).length := by
    rw [hacc]
    exact sampled_flatMap_length _ 1666 _ (by omega)
  refine ⟨?_, ?_, ?_, ?_, ?_, ?_⟩
  · rw [hlen, S3Gui.sampleSeconds_filter]
  · rw [hlen]
    have h5 := S3Gui.sampleSeconds_le5 1666 ((bs.length / 6008) * 1000)
    omega
  · rw [← List.length_eq_zero, hlen]
    have hz := S3Gui.sampleSeconds_len_zero_iff 1666 ((bs.length / 6008) * 1000)
    omega
  · intro s j hj hs5 hp
    have hcnt := sample_mem_count 1666 ((bs.length / 6008) * 1000) s hs5 hp
    rw [hacc, sampled_flatMap_getD _ 1666 _ (by omega) _ s j hj hcnt]
    exact S3Gui.acc_rows_getD bs (s * 1666 + j) (by omega)
  · intro hshort
    rw [S3Gui.load_mic_dat_from_s3]
    rw [if_pos (by omega)]
  · intro l hl
    by_cases hs0 : bs.length / 2008 = 0
    · rw [S3Gui.load_mic_dat_from_s3, if_pos hs0] at hl
      exact absurd hl (by simp)
    · rw [S3Gui.load_mic_dat_from_s3, if_neg hs0] at hl
      have havail := S3Gui.mic_avail_eq bs (by omega)
      rw [havail] at hl
      have hml := S3Gui.mic_rows_length bs
      have hlv := Except.ok.inj hl
      have hlen2 : l.length =
          30 * (S3Gui.sampleSeconds 8000 ((bs.length / 2008) * 1000)).length := by
        rw [← hlv]
        exact sampled_flatMap_length _ 8000 _ (by omega)
      have hcnt1 : 0 < (S3Gui.sampleSeconds 8000 ((bs.length / 2008) * 1000)).length := by
        refine sample_mem_count 8000 _ 0 (by norm_num) ?_
        have h1 : 1 ≤ bs.length / 2008 := by omega
        have h2 : 1 * 1000 ≤ (bs.length / 2008) * 1000 :=
          Nat.mul_le_mul_right 1000 h1
        omega
    
      refine ⟨?_, ?_, ?_, ?_⟩
      · rw [hlen2, S3Gui.sampleSeconds_filter]
      · rw [hlen2]
        have h5 := S3Gui.sampleSeconds_le5 8000 ((bs.length / 2008) * 1000)
        omega
      · have : 0 < l.length := by omega
        exact List.ne_nil_of_length_pos this
      · intro s j hj hs5 hp
        have hcnt := sample_mem_count 8000 ((bs.length / 2008) * 1000) s hs5 hp
        rw [← hlv, sampled_flatMap_getD _ 8000 _ (by omega) _ s j hj hcnt]
        exact S3Gui.mic_rows_getD bs (s * 8000 + j) (by omega)

/-- C2 counterexample: a one-block ACC capture decodes to 1000 samples -
fewer than one second's worth at 1666 Hz - yet the S3 ACC loader returns 30
samples, not an empty result as the claim demands. -/
theorem s3_acc_one_block_not_empty :
    (S3Gui.load_acc_dat_from_s3 (List.replicate 6008 0)).length = 30 ∧
    (List.replicate 6008 (0 : ℕ)).length / 6008 * 1000 = 1000 ∧
    (1000 : ℕ) < 1666 := by
  refine ⟨?_, by rw [List.length_replicate], by norm_num⟩
  have hrl := S3Gui.acc_rows_length (List.replicate 6008 0)
  rw [S3Gui.load_acc_dat_from_s3, hrl]
  rw [sampled_flatMap_length _ 1666 _ (by omega)]
  rw [List.length_replicate]
  rw [show (6008 : ℕ) / 6008 * 1000 = 1000 from by norm_num]
  rw [show S3Gui.sampleSeconds 1666 1000 = [0] from by decide]
  norm_num

/-- Witness for C2 at concrete inputs: an empty stream and a sub-block MIC
stream. -/
theorem s3_loaders_sample_at_most_150_concrete :
    (S3Gui.load_acc_dat_from_s3 []).length ≤ 150 ∧
    S3Gui.load_mic_dat_from_s3 (List.replicate 100 7) = .error () := by
  refine ⟨(s3_loaders_sample_at_most_150 []).2.1, ?_⟩
  exact (s3_loaders_sample_at_most_150 (List.replicate 100 7)).2.2.2.2.1
    (by rw [List.length_replicate]; norm_num)

/-- C3: batch results are consumed and inserted strictly in submission
(batch-index) order - with every insert succeeding, batch j's row buffers
sit at position j of the insert sequence and batch k's at position k, so
for j < k batch j is inserted first; the statement holds for every
completion-time assignment completeAt, i.e. regardless of which batch's
decode finishes first. -/
theorem batches_inserted_in_submission_order {α : Type} (decode : ℕ → α)
    (completeAt : ℕ → ℕ) (fbs : ℕ) (rc : α → ℕ) (n j k : ℕ)
    (hjk : j < k) (hk : k < n) :
    (S3Gui.processRun decode completeAt fbs (fun _ => true) rc n).inserts[j]? =
      some (j, decode j) ∧
    (S3Gui.processRun decode completeAt fbs (fun _ => true) rc n).inserts[k]? =
      some (k, decode k) := by
  have hins : (S3Gui.processRun decode completeAt fbs (fun _ => true) rc n).inserts =
      (List.range n).map (fun b => (b, decode b)) := by
    rw [S3Gui.processRun, S3Gui.drainAll, S3Gui.drain_inserts]
    rw [S3Gui.submitAll_filter decode completeAt n (fun _ => true)]
    rw [List.filter_true, List.map_map]
    simp [S3Gui.initDrain, Function.comp_def]
  constructor
  · rw [hins, List.getElem?_map, List.getElem?_range (by omega)]
    rfl
  · rw [hins, List.getElem?_map, List.getElem?_range hk]
    rfl

/-- Witness for C3: two batches where batch 1's decode completes before
batch 0's (completion times 10 and 9), yet batch 0 is inserted first. -/
theorem batches_inserted_in_submission_order_concrete :
    (S3Gui.processRun (fun b => b) (fun b => 10 - b) 7 (fun _ => true)
      (fun v => v) 2).inserts[0]? = some (0, 0) ∧
    (S3Gui.processRun (fun b => b) (fun b => 10 - b) 7 (fun _ => true)
      (fun v => v) 2).inserts[1]? = some (1, 1) :=
  batches_inserted_in_submission_order (fun b => b) (fun b => 10 - b) 7
    (fun v => v) 2 0 1 (by norm_num) (by norm_num)

/-- C4 counterexample: a failure-free one-batch run and a two-batch run
whose second insert fails produce identical final summaries (the summary
shows only processed files, total records and elapsed time), so no
failed-batch count exists in the final summary to reflect the failure. -/
theorem final_summary_lacks_failed_batch_count :
    S3Gui.finalSummary (S3Gui.processRun (fun _ => 0) (fun _ => 0) 10
        (fun _ => true) (fun _ => 0) 1) =
      S3Gui.finalSummary (S3Gui.processRun (fun _ => 0) (fun _ => 0) 10
        (fun b => b == 0) (fun _ => 0) 2) ∧
    (S3Gui.processRun (fun _ => 0) (fun _ => 0) 10 (fun _ => true)
      (fun _ => 0) 1).failedLog.length = 0 ∧
    (S3Gui.processRun (fun _ => 0) (fun _ => 0) 10 (fun b => b == 0)
      (fun _ => 0) 2).failedLog.length = 1 := by
  refine ⟨rfl, rfl, rfl⟩

/-- C4 (amended): if inserting batch k fails, batches k+1..n are still
attempted (every submitted batch is awaited and processed), and the failure
is recorded only in the log: batch k appears in the error log, its buffers
are never inserted, and the final summary's counters are computed from the
successful batches alone - the summary carries no failed-batch count. -/
theorem insert_failure_isolation {α : Type} (decode : ℕ → α) (ct : ℕ → ℕ)
    (fbs : ℕ) (ok : ℕ → Bool) (rc : α → ℕ) (n k : ℕ) (hk : k < n)
    (hfail : ok k = false) :
    (S3Gui.processRun decode ct fbs ok rc n).attempted = List.range n ∧
    k ∈ (S3Gui.processRun decode ct fbs ok rc n).failedLog ∧
    k ∉ ((S3Gui.processRun decode ct fbs ok rc n).inserts.map Prod.fst) ∧
    S3Gui.finalSummary (S3Gui.processRun decode ct fbs ok rc n) =
      ⟨fbs * ((List.range n).filter ok).length,
       (((List.range n).filter ok).map (fun b => rc (decode b))).sum⟩ := by
  refine ⟨?_, ?_, ?_, ?_⟩
  · rw [S3Gui.processRun, S3Gui.drainAll, S3Gui.drain_attempted,
      S3Gui.submitAll_map_idx]
    simp [S3Gui.initDrain]
  · rw [S3Gui.processRun, S3Gui.drainAll, S3Gui.drain_failedLog,
      S3Gui.submitAll_filter decode ct n (fun b => !ok b), List.map_map]
    simp only [S3Gui.initDrain, List.nil_append, Function.comp_def]
    rw [show (fun x : ℕ => x) = id from rfl, List.map_id]
    rw [List.mem_filter]
    exact ⟨List.mem_range.mpr hk, by simp [hfail]⟩
  · rw [S3Gui.processRun, S3Gui.drainAll, S3Gui.drain_inserts,
      S3Gui.submitAll_filter decode ct n ok]
    simp only [S3Gui.initDrain, List.nil_append, List.map_map, Function.comp_def]
    intro hmem
    simp only [List.mem_map, List.mem_filter, List.mem_range] at hmem
    obtain ⟨b, ⟨hbr, hbok⟩, hbe⟩ := hmem
    rw [hbe] at hbok
    rw [hfail] at hbok
    exact absurd hbok (by simp)
  · have hp := S3Gui.drain_processed fbs ok rc (S3Gui.submitAll decode ct n)
      S3Gui.initDrain
    have hr := S3Gui.drain_records fbs ok rc (S3Gui.submitAll decode ct n)
      S3Gui.initDrain
    rw [S3Gui.submitAll_filter decode ct n ok] at hp hr
    simp only [S3Gui.initDrain, List.length_map, List.map_map,
      Function.comp_def, Nat.zero_add] at hp hr
    rw [S3Gui.finalSummary, S3Gui.processRun, S3Gui.drainAll]
    simp only [S3Gui.initDrain]
    exact congrArg₂ (fun a b => (⟨a, b⟩ : S3Gui.RunStats)) hp hr

/-- Witness for C4: three batches with batch 1 failing; it lands in the
failure log while batches 0 and 2 are still attempted. -/
theorem insert_failure_isolation_concrete :
    (S3Gui.processRun (fun b => b) (fun _ => 0) 5 (fun b => b != 1)
      (fun v => v) 3).attempted = List.range 3 ∧
    1 ∈ (S3Gui.processRun (fun b => b) (fun _ => 0) 5 (fun b => b != 1)
      (fun v => v) 3).failedLog := by
  have h := insert_failure_isolation (fun b => b) (fun _ => 0) 5
    (fun b => b != 1) (fun v => v) 3 1 (by norm_num) (by decide)
  exact ⟨h.1, h.2.1⟩

/-- C5 (amended): when discovery completes without raising, it returns
exactly the listed .dat files whose filename-parsed date falls within the
caller's inclusive range (the end date through 23:59:59), ordered by
(sensor, key) independently of the storage listing order.  (A listed name
whose time fields fail int() aborts the whole scan instead - see the
counterexample.) -/
theorem discovery_filter_sort_deterministic (start endd : PyDateTime)
    (listing res : List (PyStr × PyStr))
    (h : S3Gui.discoverFiles start endd listing = .ok res) :
    (∀ x, x ∈ res ↔ x ∈ listing ∧ ((".dat".data).isSuffixOf x.2 = true ∧
      ∃ d, S3Gui.parse_filename_date (basename x.2) = .ok (some d) ∧
        (dtLe start d && dtLe d (endOfDay endd)) = true)) ∧
    List.Sorted S3Gui.fileLeR res ∧
    ∀ l2, listing.Perm l2 → S3Gui.discoverFiles start endd l2 = .ok res := by
  refine ⟨fun x => ?_, S3Gui.discover_ok_sorted start endd listing res h,
    fun l2 hp => S3Gui.discover_perm_invariant start endd listing l2 res hp h⟩
  rw [S3Gui.discover_ok_mem start endd listing res h x,
    S3Gui.keyAccept_true_iff]

/-- Witness for C5: a two-file catalog listed in reverse order is returned
date-filtered and sorted by (sensor, key); the same result is produced from
the already-sorted listing order. -/
theorem discovery_filter_sort_deterministic_concrete :
    S3Gui.discoverFiles ⟨2025, 4, 1, 0, 0, 0⟩ ⟨2025, 4, 30, 0, 0, 0⟩
      [("acc".data, "m1/raw_dat/acc/20250403_10_00_00_S_ACC.dat".data),
       ("acc".data, "m1/raw_dat/acc/20250405_10_00_00_S_ACC.dat".data)] =
      .ok [("acc".data, "m1/raw_dat/acc/20250403_10_00_00_S_ACC.dat".data),
           ("acc".data, "m1/raw_dat/acc/20250405_10_00_00_S_ACC.dat".data)] := by
  have h := discovery_filter_sort_deterministic ⟨2025, 4, 1, 0, 0, 0⟩
    ⟨2025, 4, 30, 0, 0, 0⟩
    [("acc".data, "m1/raw_dat/acc/20250405_10_00_00_S_ACC.dat".data),
     ("acc".data, "m1/raw_dat/acc/20250403_10_00_00_S_ACC.dat".data)]
    [("acc".data, "m1/raw_dat/acc/20250403_10_00_00_S_ACC.dat".data),
     ("acc".data, "m1/raw_dat/acc/20250405_10_00_00_S_ACC.dat".data)]
    (by rfl)
  exact h.2.2 _ (List.Perm.swap _ _ _)

/-- C5 counterexample: a listing that contains one in-range .dat file and
one .dat file whose hour field is non-numeric makes discovery raise
(int() ValueError at line 461) and return nothing, instead of returning the
qualifying file as the claim demands. -/
theorem discovery_aborts_on_malformed_name :
    S3Gui.discoverFiles ⟨2025, 4, 1, 0, 0, 0⟩ ⟨2025, 4, 30, 0, 0, 0⟩
      [("acc".data, "m1/raw_dat/acc/20250403_10_00_00_S_ACC.dat".data),
       ("acc".data, "m1/raw_dat/acc/20250408_xx_00_00_S_ACC.dat".data)] =
      .error () ∧
    S3Gui.keyAccept ⟨2025, 4, 1, 0, 0, 0⟩ (endOfDay ⟨2025, 4, 30, 0, 0, 0⟩)
      ("m1/raw_dat/acc/20250403_10_00_00_S_ACC.dat".data) = .ok true := by
  constructor
  · rfl
  · rfl

/-- Short-chunk conditions for the windowed decoders. -/
theorem acc_chunk_short (bs : List ℕ) (b : ℕ)
    (h : bs.length < b * 6008 + 6000) :
    (toInt16s (accChunkBytes bs b)).length < 3000 := by
  rw [toInt16s_length]
  simp only [accChunkBytes, List.length_take, List.length_drop]
  omega

theorem mic_chunk_short (bs : List ℕ) (b : ℕ)
    (h : bs.length < b * 2008 + 2000) :
    (toInt16s (micChunkBytes bs b)).length < 1000 := by
  rw [toInt16s_length]
  simp only [micChunkBytes, List.length_take, List.length_drop]
  omega

set_option maxRecDepth 100000 in
/-- C6 counterexample: a MIC capture with one complete block, decoded in
windowed mode with sampling_rate * window_sec = 1500, succeeds (the code
demands only floor(1500 / 1000) = 1 block) although the input holds fewer
complete blocks than the 2 = ceil(1500 / 1000) required to supply the
demanded sample count; a partial result is returned, not an error. -/
theorem mic_windowed_accepts_fewer_blocks :
    (DatCsv.load_dat_file_mic (fun _ => 0) (List.replicate 2008 0) 1500 1).isSome
      = true ∧
    (1500 * 1 + 999) / 1000 = 2 ∧
    (List.replicate 2008 (0 : ℕ)).length / 2008 = 1 := by
  refine ⟨by decide, by norm_num, by rw [List.length_replicate]⟩

/-- C6 (amended): in windowed mode decode fails with an error (the
ValueError of dat_csv.py lines 36/53) and returns no partial result
whenever the input lacks the payload bytes of the blocks the decoder
demands - ceil(needed / 1000) blocks for ACC but only floor(needed / 1000)
for MIC (the trailing 8-byte trailer of the last demanded block need not be
present). -/
theorem windowed_truncation_error (junkA : ℕ → ℤ × ℤ × ℤ) (junkM : ℕ → ℤ)
    (bs : List ℕ) (rate window : ℕ) :
    (1 ≤ (rate * window + 999) / 1000 →
      bs.length < ((rate * window + 999) / 1000 - 1) * 6008 + 6000 →
      DatCsv.load_dat_file_acc junkA bs rate window = none) ∧
    (1 ≤ rate * window / 1000 →
      bs.length < (rate * window / 1000 - 1) * 2008 + 2000 →
      DatCsv.load_dat_file_mic junkM bs rate window = none) := by
  constructor
  · intro hsets hlen
    rw [DatCsv.load_dat_file_acc]
    have hnone : DatCsv.accWinLoop bs (rate * window)
        ((rate * window + 999) / 1000) 0 0 junkA = none := by
      apply DatCsv.accWinLoop_none
      refine ⟨(rate * window + 999) / 1000 - 1, by omega, ?_⟩
      have hshort := acc_chunk_short bs ((rate * window + 999) / 1000 - 1)
        (by omega)
      simpa using hshort
    rw [hnone]
  · intro hsets hlen
    rw [DatCsv.load_dat_file_mic]
    have hnone : DatCsv.micWinLoop bs (rate * window / 1000) 0 junkM = none := by
      apply DatCsv.micWinLoop_none
      refine ⟨rate * window / 1000 - 1, by omega, ?_⟩
      have hshort := mic_chunk_short bs (rate * window / 1000 - 1) (by omega)
      simpa using hshort
    rw [hnone]

/-- Witness for C6 on the empty input, which lacks every demanded payload. -/
theorem windowed_truncation_error_concrete :
    DatCsv.load_dat_file_acc (fun _ => (0, 0, 0)) [] 1000 1 = none ∧
    DatCsv.load_dat_file_mic (fun _ => 0) [] 1000 1 = none := by
  have h := windowed_truncation_error (fun _ => (0, 0, 0)) (fun _ => 0) [] 1000 1
  exact ⟨h.1 (by norm_num) (by norm_num), h.2 (by norm_num) (by norm_num)⟩

/-- C9: the filename timestamp parsing maps
20250407_11_28_22_MP23ABS1_MIC.dat to the base time 2025-04-07T11:28:22
(in both the validated parser of dat_csv_integerated.py and the S3 GUI's
parse_filename_date), and a name whose hour field is "24" or whose minute
field is non-numeric (no integer value) yields a parse failure - None or a
raised ValueError - never a timestamp. -/
theorem filename_timestamp_parsing :
    DatCsvIntegrated.extract_datetime_from_filename
      ("20250407_11_28_22_MP23ABS1_MIC.dat".data) =
        some ⟨2025, 4, 7, 11, 28, 22⟩ ∧
    S3Gui.parse_filename_date ("20250407_11_28_22_MP23ABS1_MIC.dat".data) =
      .ok (some ⟨2025, 4, 7, 11, 28, 22⟩) ∧
    (∀ name : PyStr, (splitOnChar '_' name).getD 1 [] = "24".data →
      DatCsvIntegrated.extract_datetime_from_filename name = none ∧
      ∀ d, S3Gui.parse_filename_date name ≠ .ok (some d)) ∧
    (∀ name m, (splitOnChar '_' name).getD 2 [] = m → pyInt m = none →
      DatCsvIntegrated.extract_datetime_from_filename name = none ∧
      ∀ d, S3Gui.parse_filename_date name ≠ .ok (some d)) := by
  refine ⟨by decide, by rfl,
    fun name hh => ⟨extract_none_of_hour24 name hh,
      fun d => parse_not_some_of_hour24 name hh d⟩,
    fun name m hm hn => ⟨extract_none_of_bad_minute name m hm hn,
      fun d => parse_not_some_of_bad_minute name m hm hn d⟩⟩

/-- Witness for C9 at a concrete hour-24 name and a concrete non-numeric
minute name. -/
theorem filename_timestamp_parsing_concrete :
    DatCsvIntegrated.extract_datetime_from_filename
      ("20250407_24_28_22_S_MIC.dat".data) = none ∧
    DatCsvIntegrated.extract_datetime_from_filename
      ("20250407_11_2x_22_S_MIC.dat".data) = none := by
  constructor
  · exact (filename_timestamp_parsing.2.2.1
      ("20250407_24_28_22_S_MIC.dat".data) (by decide)).1
  · exact (filename_timestamp_parsing.2.2.2
      ("20250407_11_2x_22_S_MIC.dat".data) ("2x".data) (by decide) (by decide)).1

/-- C10: for every windowed MIC decode whose demanded sample count
sampling_rate * window_sec is not a multiple of 1000, the returned array
has the demanded length, its first floor(needed / 1000) * 1000 entries are
the file's samples, and every remaining tail entry is whatever np.empty
left there (the junk parameter) - never assigned from file data. -/
theorem mic_windowed_tail_junk (junk : ℕ → ℤ) (bs : List ℕ)
    (rate window : ℕ) (hnd : ¬ (1000 ∣ rate * window)) (l : List ℤ)
    (hl : DatCsv.load_dat_file_mic junk bs rate window = some l) :
    l.length = rate * window ∧
    (∀ idx, idx < rate * window / 1000 * 1000 →
      l.getD idx 0 = micRawSample bs idx) ∧
    (∀ idx, rate * window / 1000 * 1000 ≤ idx → idx < rate * window →
      l.getD idx 0 = junk idx) := by
  rw [DatCsv.load_dat_file_mic] at hl
  cases hw : DatCsv.micWinLoop bs (rate * window / 1000) 0 junk with
  | none =>
    rw [hw] at hl
    exact absurd hl (by simp)
  | some buf =>
    rw [hw] at hl
    have hlv := Option.some.inj hl
    have hchar := DatCsv.micWinLoop_some bs (rate * window / 1000) 0 junk buf hw
    have hq : rate * window / 1000 * 1000 ≤ rate * window := Nat.div_mul_le_self _ _
    refine ⟨by rw [← hlv]; simp, ?_, ?_⟩
    · intro idx hidx
      rw [← hlv, getD_map_of_lt buf 0 0 (List.range (rate * window)) idx
        (by rw [List.length_range]; omega)]
      rw [List.getD_eq_getElem?_getD, List.getElem?_range (by omega)]
      show buf idx = micRawSample bs idx
      rw [hchar idx, if_pos (by constructor <;> omega)]
    · intro idx hidx1 hidx2
      rw [← hlv, getD_map_of_lt buf 0 0 (List.range (rate * window)) idx
        (by rw [List.length_range]; omega)]
      rw [List.getD_eq_getElem?_getD, List.getElem?_range (by omega)]
      show buf idx = junk idx
      rw [hchar idx, if_neg (by omega)]

/-- Witness for C10: a demanded count of 300 samples (not a multiple of
1000) on an empty input leaves the whole array unassigned junk. -/
theorem mic_windowed_tail_junk_concrete :
    ((List.range (300 * 1)).map (fun i => (i : ℤ) + 100)).getD 299 0 =
      (299 : ℤ) + 100 := by
  have h := mic_windowed_tail_junk (fun i => (i : ℤ) + 100) [] 300 1
    (by decide) ((List.range (300 * 1)).map (fun i => (i : ℤ) + 100)) rfl
  exact h.2.2 299 (by norm_num) (by norm_num)
